import Mathlib

/-!
# Verification of the Bitrix vendors payment loader

Shallow embedding of `src/libs/ydb.py` and `src/libs/parser.py` of the
`ParserBitrixVendors` repository.  Python dicts are insertion-ordered
association lists, exceptions are `Except` errors, Python `float` literals
are read as exact decimal rationals, and the network layer is abstracted:
the statement/requests the code would send are returned as data, so an
`Except.error` result means no query was prepared or executed.
-/

set_option maxRecDepth 100000

namespace BitrixVendors

instance {ε α : Type} [DecidableEq ε] [DecidableEq α] : DecidableEq (Except ε α) :=
  fun a b =>
    match a, b with
    | .error x, .error y =>
      if h : x = y then .isTrue (by rw [h]) else .isFalse (fun hh => h (Except.error.inj hh))
    | .ok x, .ok y =>
      if h : x = y then .isTrue (by rw [h]) else .isFalse (fun hh => h (Except.ok.inj hh))
    | .error _, .ok _ => .isFalse (fun hh => Except.noConfusion hh)
    | .ok _, .error _ => .isFalse (fun hh => Except.noConfusion hh)

/-! ## Python dict primitives -/

/-- Python dict lookup `d[k]` / `d.get(k)`: the value stored at the key. -/
def dictGet {α : Type} : List (String × α) → String → Option α
  | [], _ => none
  | (k, v) :: t, key => if k = key then some v else dictGet t key

/-- Python dict assignment `d[k] = v`: update in place if the key exists
(keeping its position), else append at the end. -/
def dictSet {α : Type} : List (String × α) → String → α → List (String × α)
  | [], key, v => [(key, v)]
  | (k, w) :: t, key, v =>
    if k = key then (k, v) :: t else (k, w) :: dictSet t key v

theorem dictGet_dictSet_self {α : Type} (p : List (String × α)) (k : String) (v : α) :
    dictGet (dictSet p k v) k = some v := by
  induction p with
  | nil => simp [dictSet, dictGet]
  | cons hd t ih =>
    obtain ⟨k', w⟩ := hd
    by_cases h : k' = k
    · simp [dictSet, dictGet, h]
    · simp [dictSet, dictGet, h, ih]

theorem dictGet_dictSet_ne {α : Type} (p : List (String × α)) (k k' : String) (v : α)
    (h : k' ≠ k) : dictGet (dictSet p k' v) k = dictGet p k := by
  induction p with
  | nil => simp [dictSet, dictGet, h]
  | cons hd t ih =>
    obtain ⟨k'', w⟩ := hd
    by_cases h2 : k'' = k'
    · subst h2; simp [dictSet, dictGet, h]
    · simp [dictSet, dictGet, h2, ih]

/-! ## Decimal rendering of naturals (Python `str(n)` / f-string formatting) -/

/-- The character of a decimal digit. -/
def digitChar (n : Nat) : Char := Char.ofNat (48 + n % 10)

/-- Fuelled digit expansion (structurally recursive so that the kernel can
evaluate it; the fuel is always sufficient at the call site). -/
def decCharsGo : Nat → Nat → List Char
  | 0, _ => []
  | fuel + 1, n =>
    if n < 10 then [digitChar n]
    else decCharsGo fuel (n / 10) ++ [digitChar (n % 10)]

/-- Characters of Python `str(n)` for a natural number `n`. -/
def decChars (n : Nat) : List Char := decCharsGo (n + 1) n

theorem decCharsGo_fuel (fuel : Nat) :
    ∀ fuel2 n, n < fuel → n < fuel2 → decCharsGo fuel n = decCharsGo fuel2 n := by
  induction fuel with
  | zero => omega
  | succ f ih =>
    intro fuel2 n h1 h2
    cases fuel2 with
    | zero => omega
    | succ f2 =>
      simp only [decCharsGo]
      by_cases h : n < 10
      · simp [h]
      · have hdiv : n / 10 < n := Nat.div_lt_self (by omega) (by omega)
        rw [if_neg h, if_neg h, ih f2 (n / 10) (by omega) (by omega)]

theorem decChars_step (n : Nat) :
    decChars n = if n < 10 then [digitChar n]
      else decChars (n / 10) ++ [digitChar (n % 10)] := by
  have hstep : decCharsGo (n + 1) n
      = if n < 10 then [digitChar n]
        else decCharsGo n (n / 10) ++ [digitChar (n % 10)] := rfl
  by_cases h : n < 10
  · rw [decChars, hstep, if_pos h, if_pos h]
  · rw [decChars, hstep, if_neg h, if_neg h, decChars,
      decCharsGo_fuel n (n / 10 + 1) (n / 10)
        (Nat.div_lt_self (by omega) (by omega)) (by omega)]

/-- Reading a digit string back as a number. -/
def decVal (l : List Char) : Nat := l.foldl (fun a c => a * 10 + (c.toNat - 48)) 0

theorem toNat_charOfNat_digit (d : Nat) (h : d < 10) :
    (Char.ofNat (48 + d)).toNat = 48 + d := by
  interval_cases d <;> decide

theorem toNat_digitChar (n : Nat) : (digitChar n).toNat = 48 + n % 10 :=
  toNat_charOfNat_digit (n % 10) (Nat.mod_lt _ (by omega))

theorem decVal_decChars (n : Nat) : decVal (decChars n) = n := by
  induction n using Nat.strong_induction_on with
  | _ n ih =>
    rw [decChars_step]
    by_cases h : n < 10
    · simp only [h, if_pos, decVal, List.foldl, toNat_digitChar]
      omega
    · simp only [h, if_neg, not_false_iff, decVal, List.foldl_append, List.foldl,
        toNat_digitChar]
      have hlt : n / 10 < n := Nat.div_lt_self (by omega) (by omega)
      have := ih (n / 10) hlt
      simp only [decVal] at this
      rw [this]
      omega

theorem decChars_digits (n : Nat) : ∀ c ∈ decChars n, 48 ≤ c.toNat ∧ c.toNat ≤ 57 := by
  induction n using Nat.strong_induction_on with
  | _ n ih =>
    rw [decChars_step]
    by_cases h : n < 10
    · simp only [h, if_pos, List.mem_singleton]
      rintro c rfl
      rw [toNat_digitChar]
      omega
    · simp only [h, if_neg, not_false_iff, List.mem_append, List.mem_singleton]
      rintro c (hc | rfl)
      · exact ih (n / 10) (Nat.div_lt_self (by omega) (by omega)) c hc
      · rw [toNat_digitChar]; omega

theorem underscore_not_mem_decChars (n : Nat) : '_' ∉ decChars n := by
  intro h
  have := decChars_digits n _ h
  simp at this

theorem decChars_injective (m n : Nat) (h : decChars m = decChars n) : m = n := by
  have := decVal_decChars m
  rw [h, decVal_decChars] at this
  omega

/-- Python `str(n)` as a string. -/
def decRepr (n : Nat) : String := ⟨decChars n⟩

theorem string_data_append (a b : String) : (a ++ b).data = a.data ++ b.data := by
  cases a; cases b; rfl

theorem string_eq_of_data_eq (a b : String) (h : a.data = b.data) : a = b := by
  cases a; cases b; exact congrArg String.mk h

/-- Splitting a character list at an `'_'` that is known to be the last
underscore of the list determines both halves. -/
theorem underscore_split (a₁ : List Char) :
    ∀ (a₂ b₁ b₂ : List Char),
      '_' ∉ a₁ → '_' ∉ a₂ → a₁ ++ '_' :: b₁ = a₂ ++ '_' :: b₂ → a₁ = a₂ ∧ b₁ = b₂ := by
  induction a₁ with
  | nil =>
    intro a₂ b₁ b₂ _ h₂ h
    cases a₂ with
    | nil => simpa using h
    | cons y s =>
      exfalso
      simp only [List.nil_append, List.cons_append, List.cons.injEq] at h
      exact h₂ (h.1 ▸ List.mem_cons_self y s)
  | cons x t ih =>
    intro a₂ b₁ b₂ h₁ h₂ h
    cases a₂ with
    | nil =>
      exfalso
      simp only [List.cons_append, List.nil_append, List.cons.injEq] at h
      exact h₁ (h.1 ▸ List.mem_cons_self x t)
    | cons y s =>
      simp only [List.cons_append, List.cons.injEq] at h
      obtain ⟨rfl, htail⟩ := h
      have h₁' : '_' ∉ t := fun hm => h₁ (List.mem_cons_of_mem _ hm)
      have h₂' : '_' ∉ s := fun hm => h₂ (List.mem_cons_of_mem _ hm)
      obtain ⟨rfl, hb⟩ := ih s b₁ b₂ h₁' h₂' htail
      exact ⟨rfl, hb⟩

/-- `f"${col}_{row_idx}"` — the synthesized parameter name of `upset_data`. -/
def paramName (col : String) (rowIdx : Nat) : String :=
  "$" ++ col ++ "_" ++ decRepr rowIdx

theorem paramName_inj (c₁ c₂ : String) (i₁ i₂ : Nat)
    (h : paramName c₁ i₁ = paramName c₂ i₂) : c₁ = c₂ ∧ i₁ = i₂ := by
  have hdata : ((decChars i₁).reverse ++ '_' :: (c₁.data.reverse ++ ['$']))
      = ((decChars i₂).reverse ++ '_' :: (c₂.data.reverse ++ ['$'])) := by
    have h1 := congrArg (fun s => s.data.reverse) h
    simp only [paramName, string_data_append, decRepr, List.reverse_append] at h1
    simpa [List.append_assoc] using h1
  have hnm₁ : '_' ∉ (decChars i₁).reverse := by
    simp only [List.mem_reverse]; exact underscore_not_mem_decChars i₁
  have hnm₂ : '_' ∉ (decChars i₂).reverse := by
    simp only [List.mem_reverse]; exact underscore_not_mem_decChars i₂
  obtain ⟨ha, hb⟩ := underscore_split _ _ _ _ hnm₁ hnm₂ hdata
  have hi : i₁ = i₂ := decChars_injective _ _ (List.reverse_injective ha)
  have hc : c₁ = c₂ := by
    have := List.append_inj' hb rfl
    exact string_eq_of_data_eq _ _ (List.reverse_injective this.1)
  exact ⟨hc, hi⟩

/-- ASCII upper-casing of one character (as `str.upper()` does on the
ASCII column names this code compares). -/
def pyCharUpper (c : Char) : Char :=
  if 'a' ≤ c ∧ c ≤ 'z' then Char.ofNat (c.toNat - 32) else c

/-- `col.upper()` on ASCII strings. -/
def pyUpper (s : String) : String := ⟨s.data.map pyCharUpper⟩

/-! ## Python `int(...)` on strings -/

/-- ASCII whitespace stripped by Python around numeric literals. -/
def isPySpace (c : Char) : Bool :=
  c = ' ' || c = '\t' || c = '\n' || c = '\r' || c = '\x0b' || c = '\x0c'

/-- Continue a digit run, allowing a single `'_'` between two digits
(Python numeric-literal underscores). Returns value and digit count. -/
def pyDigitsGo (acc cnt : Nat) : List Char → Option (Nat × Nat)
  | [] => some (acc, cnt)
  | '_' :: c :: cs =>
      if c.isDigit then pyDigitsGo (acc * 10 + (c.toNat - 48)) (cnt + 1) cs else none
  | ['_'] => none
  | c :: cs =>
      if c.isDigit then pyDigitsGo (acc * 10 + (c.toNat - 48)) (cnt + 1) cs else none

/-- A non-empty digit run with optional underscores between digits. -/
def pyDigits : List Char → Option (Nat × Nat)
  | [] => none
  | c :: cs => if c.isDigit then pyDigitsGo (c.toNat - 48) 1 cs else none

/-- Python `int(s)`: optional surrounding whitespace, optional sign, then a
digit run. `none` models the `ValueError` raised on an invalid literal. -/
def pyInt (s : String) : Option Int :=
  let cs := ((s.data.dropWhile isPySpace).reverse.dropWhile isPySpace).reverse
  match cs with
  | '+' :: rest => (pyDigits rest).map (fun p => (p.1 : Int))
  | '-' :: rest => (pyDigits rest).map (fun p => -(p.1 : Int))
  | rest => (pyDigits rest).map (fun p => (p.1 : Int))

/-! ## `src/libs/ydb.py` — `upset_data`

Cell values reaching `upset_data` are modeled as strings: the code applies
`int(row[col])` to identifier cells and `str(row[col])` to all others, and
`str` is the identity on strings. An `Except.error` result is an exception
raised before `session_pool.prepare` / `execute` — i.e. before any network
interaction; the `Stmt` value is what would be prepared and executed. -/

/-- YDB parameter types appearing in the DECLARE block. -/
inductive YdbType
  | int64
  | utf8
deriving DecidableEq, Repr

/-- A bound parameter value: `int(...)` or `str(...)` of the cell. -/
inductive YdbVal
  | vInt (i : Int)
  | vStr (s : String)
deriving DecidableEq, Repr

/-- Exceptions `upset_data` can raise before reaching the network:
`IndexError` from `data[0]` on an empty list, the explicit
`ValueError("Все словари должны иметь одинаковую структуру")`,
`KeyError` from `row[col]`, and `ValueError` from `int(row[col])`. -/
inductive UpsetErr
  | indexError
  | validationError
  | keyError
  | intValueError (s : String)
deriving DecidableEq, Repr

/-- The prepared statement: structured contents of `declare_block`,
`param_values`, `columns`, `bind_vars_rows`, and the final query text. -/
structure Stmt where
  declares : List (String × YdbType)
  paramValues : List (String × YdbVal)
  columns : List String
  valueTuples : List (List String)
  queryText : String
deriving DecidableEq, Repr

/-- Python `set(a) == set(b)` on key lists. -/
def keySetEq (a b : List String) : Bool :=
  a.all (fun k => b.contains k) && b.all (fun k => a.contains k)

/-- The inner `for col in columns` loop body of `upset_data` for one row:
declare entries, parameter bindings and bind variables, in column order. -/
def buildRow (row : List (String × String)) (rowIdx : Nat) :
    List String →
      Except UpsetErr (List (String × YdbType) × List (String × YdbVal) × List String)
  | [] => .ok ([], [], [])
  | col :: cols =>
    match dictGet row col with
    | none => .error .keyError
    | some v =>
      let name := paramName col rowIdx
      if pyUpper col = "ID" then
        match pyInt v with
        | none => .error (.intValueError v)
        | some n =>
          match buildRow row rowIdx cols with
          | .error e => .error e
          | .ok (ds, ps, bs) => .ok ((name, .int64) :: ds, (name, .vInt n) :: ps, name :: bs)
      else
        match buildRow row rowIdx cols with
        | .error e => .error e
        | .ok (ds, ps, bs) => .ok ((name, .utf8) :: ds, (name, .vStr v) :: ps, name :: bs)

/-- The outer `for row_idx, row in enumerate(data)` loop of `upset_data`. -/
def buildRows (columns : List String) (rowIdx : Nat) :
    List (List (String × String)) →
      Except UpsetErr
        (List (String × YdbType) × List (String × YdbVal) × List (List String))
  | [] => .ok ([], [], [])
  | row :: rest =>
    match buildRow row rowIdx columns with
    | .error e => .error e
    | .ok (ds, ps, bs) =>
      match buildRows columns (rowIdx + 1) rest with
      | .error e => .error e
      | .ok (ds', ps', bss) => .ok (ds ++ ds', ps ++ ps', bs :: bss)

/-- `f"DECLARE {param_name} AS Int64;"` / `... AS Utf8;`. -/
def declText : String × YdbType → String
  | (n, .int64) => "DECLARE " ++ n ++ " AS Int64;"
  | (n, .utf8) => "DECLARE " ++ n ++ " AS Utf8;"

/-- `f"({', '.join(bind_vars)})"`. -/
def tupleText (names : List String) : String :=
  "(" ++ String.intercalate ", " names ++ ")"

/-- The f-string assembling the full query (lines 51-55 of `ydb.py`). -/
def mkQueryText (table : String) (declares : List (String × YdbType))
    (columns : List String) (tuples : List (List String)) : String :=
  "\n    " ++ String.intercalate " " (declares.map declText) ++
    "\n    UPSERT INTO `" ++ table ++ "` (" ++ String.intercalate ", " columns ++
    ")\n    VALUES " ++ String.intercalate ", " (tuples.map tupleText) ++ ";\n    "

/-- `upset_data(table, data)` from `src/libs/ydb.py`, embedded up to the
point where the query would be prepared and executed. -/
def upset_data (table : String) (data : List (List (String × String))) :
    Except UpsetErr Stmt :=
  match data with
  | [] => .error .indexError
  | first :: rest =>
    let columns := first.map Prod.fst
    if ¬ ((first :: rest).all fun item => keySetEq (item.map Prod.fst) columns) then
      .error .validationError
    else
      match buildRows columns 0 (first :: rest) with
      | .error e => .error e
      | .ok (ds, ps, bss) =>
        .ok { declares := ds, paramValues := ps, columns := columns,
              valueTuples := bss,
              queryText := mkQueryText table ds columns bss }

/-! ## Python `float(...)` on strings

Modeled exactly: the value of a finite float literal is the decimal it
denotes, kept as a normalized pair `(n, e)` denoting `n / 10 ^ e` with
`n` not a multiple of 10 unless `e = 0` (the special literals
`inf`/`infinity`/`nan` are outside this model and no claim touches them). -/

/-- A possibly-empty digit run with Python underscore separators. -/
def pyDigitsOpt : List Char → Option (Nat × Nat)
  | [] => some (0, 0)
  | c :: cs => pyDigits (c :: cs)

/-- Split at the first `'e'`/`'E'`: mantissa and optional exponent text. -/
def splitAtExp : List Char → List Char × Option (List Char)
  | [] => ([], none)
  | c :: cs =>
    if c = 'e' ∨ c = 'E' then ([], some cs)
    else
      let p := splitAtExp cs
      (c :: p.1, p.2)

/-- Split at the first `'.'`: integer part and optional fractional text. -/
def splitAtDot : List Char → List Char × Option (List Char)
  | [] => ([], none)
  | c :: cs =>
    if c = '.' then ([], some cs)
    else
      let p := splitAtDot cs
      (c :: p.1, p.2)

/-- Unsigned float literal: mantissa with optional fraction and exponent.
The result `(m, s)` denotes `m / 10 ^ s`. -/
def pyFloatUnsigned (cs : List Char) : Option (Nat × Nat) :=
  let me := splitAtExp cs
  let mantVal : Option (Nat × Nat) :=
    match splitAtDot me.1 with
    | (ip, none) => (pyDigits ip).map (fun p => (p.1, 0))
    | (ip, some fp) =>
      match pyDigitsOpt ip, pyDigitsOpt fp with
      | some iv, some fv =>
        if iv.2 = 0 ∧ fv.2 = 0 then none
        else some (iv.1 * 10 ^ fv.2 + fv.1, fv.2)
      | _, _ => none
  match mantVal, me.2 with
  | none, _ => none
  | some m, none => some m
  | some m, some ecs =>
    let se : Bool × List Char :=
      match ecs with
      | '+' :: r => (false, r)
      | '-' :: r => (true, r)
      | r => (false, r)
    match pyDigits se.2 with
    | none => none
    | some ev =>
      if se.1 then some (m.1, m.2 + ev.1) else some (m.1 * 10 ^ ev.1, m.2)

/-- Normalize a decimal `n / 10 ^ e`: cancel factors of 10 (the fuel is
always at least `e`, which suffices). -/
def normDec : Nat → Int → Nat → Int × Nat
  | _, n, 0 => (n, 0)
  | 0, n, e => (n, e)
  | fuel + 1, n, e + 1 => if n % 10 = 0 then normDec fuel (n / 10) e else (n, e + 1)

/-- Python `float(s)`: strip whitespace, optional sign, unsigned literal.
The result denotes `n / 10 ^ e`, normalized so that equal float values get
equal representations. `none` models the `ValueError` on an invalid
literal. -/
def pyFloat (s : String) : Option (Int × Nat) :=
  let cs := ((s.data.dropWhile isPySpace).reverse.dropWhile isPySpace).reverse
  match cs with
  | '+' :: rest => (pyFloatUnsigned rest).map (fun m => normDec m.2 (m.1 : Int) m.2)
  | '-' :: rest => (pyFloatUnsigned rest).map (fun m => normDec m.2 (-(m.1 : Int)) m.2)
  | rest => (pyFloatUnsigned rest).map (fun m => normDec m.2 (m.1 : Int) m.2)

/-- `value.replace(' ', '').replace(',', '.')` (single-character replaces). -/
def amountNormalize (s : String) : String :=
  ⟨(s.data.filter (fun c => c ≠ ' ')).map (fun c => if c = ',' then '.' else c)⟩

/-! ## Dates: `datetime.strptime` / `strftime` as used by the parser -/

/-- The fields of a Python `datetime` the code reads (time is unused). -/
structure PyDateTime where
  year : Nat
  month : Nat
  day : Nat
deriving DecidableEq, Repr

def isLeap (y : Nat) : Bool := y % 4 = 0 && (y % 100 ≠ 0 || y % 400 = 0)

def daysInMonth (y m : Nat) : Nat :=
  match m with
  | 1 => 31 | 2 => if isLeap y then 29 else 28 | 3 => 31 | 4 => 30
  | 5 => 31 | 6 => 30 | 7 => 31 | 8 => 31 | 9 => 30 | 10 => 31
  | 11 => 30 | 12 => 31 | _ => 0

/-- Split a character list on a separator character. -/
def splitChar (sep : Char) : List Char → List (List Char)
  | [] => [[]]
  | c :: cs =>
    if c = sep then [] :: splitChar sep cs
    else
      match splitChar sep cs with
      | [] => [[c]]
      | p :: ps => (c :: p) :: ps

def allDigits (l : List Char) : Bool := l.all Char.isDigit

/-- `datetime.strptime(s, '%d.%m.%Y')`: day and month of 1-2 digits, year
of 1-4 digits, separated by dots, validated as a real calendar date.
`none` models the `ValueError` on mismatch. -/
def pyStrptimeDMY (s : String) : Option PyDateTime :=
  match splitChar '.' s.data with
  | [d, m, y] =>
    if allDigits d ∧ allDigits m ∧ allDigits y
        ∧ 1 ≤ d.length ∧ d.length ≤ 2 ∧ 1 ≤ m.length ∧ m.length ≤ 2
        ∧ 1 ≤ y.length ∧ y.length ≤ 4 then
      let dv := decVal d
      let mv := decVal m
      let yv := decVal y
      if 1 ≤ mv ∧ mv ≤ 12 ∧ 1 ≤ dv ∧ dv ≤ daysInMonth yv mv ∧ 1 ≤ yv then
        some ⟨yv, mv, dv⟩
      else none
    else none
  | _ => none

/-- Two-digit zero-padded field (`%m`, `%d`). -/
def pad2 (n : Nat) : String := ⟨[digitChar (n / 10), digitChar n]⟩

/-- Four-digit zero-padded field (`%Y`). -/
def pad4 (n : Nat) : String :=
  ⟨[digitChar (n / 1000), digitChar (n / 100), digitChar (n / 10), digitChar n]⟩

/-- `strftime('%Y-%m-%d')`. -/
def fmtYmd (d : PyDateTime) : String :=
  pad4 d.year ++ "-" ++ pad2 d.month ++ "-" ++ pad2 d.day

/-- `strftime('01-%m-%Y')` — the premium-hash date suffix. -/
def fmt01mY (d : PyDateTime) : String := "01-" ++ pad2 d.month ++ "-" ++ pad4 d.year

/-- `strftime('%Y-%m-01')` — the premium `DATE_PARSE` field. -/
def fmtYm01 (d : PyDateTime) : String := pad4 d.year ++ "-" ++ pad2 d.month ++ "-01"

/-! ## UTF-8 and SHA-256 (`hashlib.sha256(...).hexdigest()`)

32-bit words are `Nat`s reduced modulo `2 ^ 32`. -/

/-- UTF-8 encoding of one character (Python `str.encode()`). -/
def utf8Char (c : Char) : List Nat :=
  let n := c.toNat
  if n < 128 then [n]
  else if n < 2048 then [192 + n / 64, 128 + n % 64]
  else if n < 65536 then [224 + n / 4096, 128 + n / 64 % 64, 128 + n % 64]
  else [240 + n / 262144, 128 + n / 4096 % 64, 128 + n / 64 % 64, 128 + n % 64]

/-- UTF-8 bytes of a string. -/
def utf8Bytes (s : String) : List Nat := s.data.flatMap utf8Char

def w32 (n : Nat) : Nat := n % 4294967296

/-- 32-bit right rotation (operand assumed `< 2 ^ 32`). -/
def rotr (k n : Nat) : Nat := w32 (n / 2 ^ k + n % 2 ^ k * 2 ^ (32 - k))

def shr32 (k n : Nat) : Nat := n / 2 ^ k

def not32 (n : Nat) : Nat := 4294967295 ^^^ n

def shaCh (x y z : Nat) : Nat := (x &&& y) ^^^ (not32 x &&& z)

def shaMaj (x y z : Nat) : Nat := (x &&& y) ^^^ (x &&& z) ^^^ (y &&& z)

def bigSigma0 (x : Nat) : Nat := rotr 2 x ^^^ rotr 13 x ^^^ rotr 22 x

def bigSigma1 (x : Nat) : Nat := rotr 6 x ^^^ rotr 11 x ^^^ rotr 25 x

def smallSigma0 (x : Nat) : Nat := rotr 7 x ^^^ rotr 18 x ^^^ shr32 3 x

def smallSigma1 (x : Nat) : Nat := rotr 17 x ^^^ rotr 19 x ^^^ shr32 10 x

/-- The 64 SHA-256 round constants (fractional cube-root bits of the first
64 primes), in decimal. -/
def shaK : List Nat := [
  1116352408, 1899447441, 3049323471, 3921009573, 961987163,
  1508970993, 2453635748, 2870763221, 3624381080, 310598401,
  607225278, 1426881987, 1925078388, 2162078206, 2614888103,
  3248222580, 3835390401, 4022224774, 264347078, 604807628,
  770255983, 1249150122, 1555081692, 1996064986, 2554220882,
  2821834349, 2952996808, 3210313671, 3336571891, 3584528711,
  113926993, 338241895, 666307205, 773529912, 1294757372,
  1396182291, 1695183700, 1986661051, 2177026350, 2456956037,
  2730485921, 2820302411, 3259730800, 3345764771, 3516065817,
  3600352804, 4094571909, 275423344, 430227734, 506948616,
  659060556, 883997877, 958139571, 1322822218, 1537002063,
  1747873779, 1955562222, 2024104815, 2227730452, 2361852424,
  2428436474, 2756734187, 3204031479, 3329325298]

/-- The 8 SHA-256 initial hash words, in decimal. -/
def shaH0 : List Nat := [
  1779033703, 3144134277, 1013904242, 2773480762,
  1359893119, 2600822924, 528734635, 1541459225]

/-- Big-endian bytes (`k` bytes) of a number. -/
def beBytes : Nat → Nat → List Nat
  | 0, _ => []
  | k + 1, n => beBytes k (n / 256) ++ [n % 256]

/-- Group bytes into big-endian 32-bit words. -/
def bytesToWords : List Nat → List Nat
  | b0 :: b1 :: b2 :: b3 :: rest => (((b0 * 256 + b1) * 256 + b2) * 256 + b3) :: bytesToWords rest
  | _ => []

/-- SHA-256 padding: `0x80`, zeros to 56 mod 64, 8-byte big-endian bit length. -/
def shaPad (msg : List Nat) : List Nat :=
  msg ++ 128 :: List.replicate ((119 - msg.length % 64) % 64) 0 ++ beBytes 8 (msg.length * 8)

def chunks64Go : Nat → List Nat → List (List Nat)
  | _, [] => []
  | 0, _ :: _ => []
  | fuel + 1, x :: xs => ((x :: xs).take 64) :: chunks64Go fuel ((x :: xs).drop 64)

/-- Split a byte list into 64-byte blocks (fuel is always sufficient). -/
def chunks64 (l : List Nat) : List (List Nat) := chunks64Go (l.length + 1) l

/-- Extend the 16-word schedule by one word. -/
def stepW (acc : List Nat) : List Nat :=
  let n := acc.length
  acc ++ [w32 (smallSigma1 (acc.getD (n - 2) 0) + acc.getD (n - 7) 0 +
    smallSigma0 (acc.getD (n - 15) 0) + acc.getD (n - 16) 0)]

def extendW (acc : List Nat) : Nat → List Nat
  | 0 => acc
  | k + 1 => extendW (stepW acc) k

/-- One SHA-256 round on the 8-word working state. -/
def compressStep (st : List Nat) (kw : Nat × Nat) : List Nat :=
  match st with
  | [a, b, c, d, e, f, g, h] =>
    let t1 := w32 (h + bigSigma1 e + shaCh e f g + kw.1 + kw.2)
    let t2 := w32 (bigSigma0 a + shaMaj a b c)
    [w32 (t1 + t2), a, b, c, w32 (d + t1), e, f, g]
  | other => other

def compressBlock (h : List Nat) (blockWords : List Nat) : List Nat :=
  let ws := extendW blockWords 48
  let st := (shaK.zip ws).foldl compressStep h
  (h.zip st).map (fun p => w32 (p.1 + p.2))

def sha256Words (msg : List Nat) : List Nat :=
  (chunks64 (shaPad msg)).foldl (fun h b => compressBlock h (bytesToWords b)) shaH0

def hexChar (n : Nat) : Char :=
  if n % 16 < 10 then digitChar (n % 16) else Char.ofNat (87 + n % 16)

def byteHex (b : Nat) : List Char := [hexChar (b / 16), hexChar b]

/-- `hashlib.sha256(msg).hexdigest()`. -/
def sha256Hex (msg : List Nat) : String :=
  ⟨(sha256Words msg).flatMap (fun w => (beBytes 4 w).flatMap byteHex)⟩

/-! ## `csv.reader(StringIO(content), delimiter=';')`

State machine over the raw text: delimiter `;`, quote `"`, doubled quotes
inside a quoted field, quoting recognized only at field start, rows split
at (unquoted) `\n`, `\r\n` or `\r`; a blank line yields the empty row; a
final row without a trailing newline is still yielded. -/

def lexCsvGo : Nat → List Char → List Char → List String → List (List String) → Bool →
    List (List String)
  | _, [], field, row, acc, _ =>
      if field = [] ∧ row = [] then acc else acc ++ [row ++ [⟨field⟩]]
  | 0, _ :: _, _, _, acc, _ => acc
  | fuel + 1, c :: cs, field, row, acc, true =>
      if c = '"' then
        match cs with
        | '"' :: cs2 => lexCsvGo fuel cs2 (field ++ ['"']) row acc true
        | _ => lexCsvGo fuel cs field row acc false
      else lexCsvGo fuel cs (field ++ [c]) row acc true
  | fuel + 1, c :: cs, field, row, acc, false =>
      if c = ';' then lexCsvGo fuel cs [] (row ++ [⟨field⟩]) acc false
      else if c = '\n' then
        lexCsvGo fuel cs [] []
          (acc ++ [if field = [] ∧ row = [] then [] else row ++ [⟨field⟩]]) false
      else if c = '\r' then
        match cs with
        | '\n' :: cs2 =>
          lexCsvGo fuel cs2 [] []
            (acc ++ [if field = [] ∧ row = [] then [] else row ++ [⟨field⟩]]) false
        | _ =>
          lexCsvGo fuel cs [] []
            (acc ++ [if field = [] ∧ row = [] then [] else row ++ [⟨field⟩]]) false
      else if c = '"' ∧ field = [] then lexCsvGo fuel cs field row acc true
      else lexCsvGo fuel cs (field ++ [c]) row acc false

/-- The row stream `csv.reader` yields on the given text (the fuel is one
more than the text length, which the consumption rate always makes
sufficient). -/
def lexCsv (content : List Char) : List (List String) :=
  lexCsvGo (content.length + 1) content [] [] [] false

/-! ## `src/libs/parser.py` — `_parse_csv_payments` -/

/-- A field value of a payment record: raw/derived string, or the number a
Python `float(...)` coercion produced. `num n e` is the exact decimal
`n / 10 ^ e` in normalized form. -/
inductive PyVal
  | str (s : String)
  | num (n : Int) (e : Nat)
deriving DecidableEq, Repr

def amountKeys : List String := ["AMOUNT", "ALL_AMOUNT"]

def dateKeys : List String := ["DATE_OF_USE", "SUBSCRIPTION_START", "SUBSCRIPTION_END"]

/-- The per-field `try`-block of `_parse_csv_payments` (lines 185-193):
coerce amounts and dates; on coercion failure keep the raw string. -/
def coerceField (key value : String) : PyVal :=
  if key ∈ amountKeys then
    match pyFloat (amountNormalize value) with
    | some q => .num q.1 q.2
    | none => .str value
  else if key ∈ dateKeys then
    match pyStrptimeDMY value with
    | some d => .str (fmtYmd d)
    | none => .str value
  else .str value

/-- `payment = {}` then `for key, value in zip(header, row): payment[key] = ...`. -/
def procRow (header : List String) (row : List String) : List (String × PyVal) :=
  (header.zip row).foldl (fun p kv => dictSet p kv.1 (coerceField kv.1 kv.2)) []

/-- Python truthiness of `payment.get('ID')`. -/
def pyTruthy : Option PyVal → Bool
  | none => false
  | some (.str s) => if s = "" then false else true
  | some (.num n _) => if n = 0 then false else true

/-- Exceptions `_parse_csv_payments` can raise: `StopIteration` from
`next(reader)` on an empty input, `KeyError`/`TypeError` from
`payment['MEMBER_ID'] + ...` in the premium branch. -/
inductive ParseErr
  | stopIteration
  | keyError
  | typeError
deriving DecidableEq, Repr

/-- Lines 195-196: the derived `hash` and `DATE_PARSE` fields of a premium
payment. -/
def premiumFields (d : PyDateTime) (p : List (String × PyVal)) :
    Except ParseErr (List (String × PyVal)) :=
  match dictGet p "MEMBER_ID" with
  | none => .error .keyError
  | some (.num _ _) => .error .typeError
  | some (.str mid) =>
    .ok (dictSet (dictSet p "hash"
          (.str (sha256Hex (utf8Bytes (mid ++ fmt01mY d))))) "DATE_PARSE"
          (.str (fmtYm01 d)))

/-- The `for row in reader` loop of `_parse_csv_payments`. -/
def stepRows (d : PyDateTime) (isPremium : Bool) (header : List String) :
    List (List String) → Except ParseErr (List (List (String × PyVal)))
  | [] => .ok []
  | row :: rest =>
    if row.length ≤ 1 then stepRows d isPremium header rest
    else
      let p := procRow header row
      if isPremium then
        match premiumFields d p with
        | .error e => .error e
        | .ok p2 =>
          match stepRows d isPremium header rest with
          | .error e => .error e
          | .ok ps => .ok (p2 :: ps)
      else
        if pyTruthy (dictGet p "ID") then
          match stepRows d isPremium header rest with
          | .error e => .error e
          | .ok ps => .ok (p :: ps)
        else stepRows d isPremium header rest

/-- `_parse_csv_payments(content, is_premium)` with the run's reference
date `d` (`self.date_time`). The header is the first CSV row minus its
last element (`next(reader)[:-1]`). -/
def parse_csv_payments (d : PyDateTime) (content : String) (isPremium : Bool) :
    Except ParseErr (List (List (String × PyVal))) :=
  match lexCsv content.data with
  | [] => .error .stopIteration
  | headerRow :: dataRows => stepRows d isPremium headerRow.dropLast dataRows

/-! ## `get_app_list` / `get_client_list` — paginated table scrapers

The HTTP layer and BeautifulSoup are abstracted behind a server function
from page number to the parsed structure of the response: a transport
failure, or the page with its (possibly missing) grid table. -/

/-- Outcome of one page request. -/
inductive Fetch (α : Type)
  | transportError
  | page (p : α)

/-- Python `str.strip()` (ASCII whitespace). -/
def pyStrip (s : String) : String :=
  ⟨((s.data.dropWhile isPySpace).reverse.dropWhile isPySpace).reverse⟩

/-- `max_pages` from `ParseVendors.CONFIG`. -/
def maxPages : Nat := 100

/-- Drop a literal character pattern from the front, or fail. -/
def dropLit : List Char → List Char → Option (List Char)
  | [], l => some l
  | _ :: _, [] => none
  | p :: ps, c :: cs => if c = p then dropLit ps cs else none

/-- Try `re.search(r"bx24vendorClients\((\d+)\)", s)` anchored here. -/
def matchVendorAt (l : List Char) : Option String :=
  match dropLit ("bx24vendorClients(".data) l with
  | none => none
  | some rest =>
    let ds := rest.takeWhile Char.isDigit
    if ds = [] then none
    else
      match rest.drop ds.length with
      | ')' :: _ => some ⟨ds⟩
      | _ => none

/-- `re.search(r"bx24vendorClients\((\d+)\)", s)`: first match, group 1. -/
def reSearchVendorClients : List Char → Option String
  | [] => none
  | c :: cs =>
    match matchVendorAt (c :: cs) with
    | some s => some s
    | none => reSearchVendorClients cs

/-- A `tr.main-grid-row.main-grid-row-body` row: its `td` texts and the
`data-actions` attribute of its action span, when present. -/
structure AppRow where
  cells : List String
  dataActions : Option String
deriving DecidableEq, Repr

/-- The `table#vendor_app_list_table` element. -/
structure AppTable where
  headerCells : List String
  bodyRows : List AppRow
deriving DecidableEq, Repr

/-- A parsed `get_app_list` response page. -/
structure AppPage where
  table : Option AppTable
deriving DecidableEq, Repr

/-- `[th.text.strip() for th in thead th if th.text.strip()]`. -/
def appHeaders (t : AppTable) : List String :=
  (t.headerCells.map pyStrip).filter (fun s => s ≠ "")

/-- `{headers[i]: cells[i].text.strip() for i in range(len(headers))}`. -/
def gridRowData (headers cells : List String) : List (String × String) :=
  (List.range headers.length).foldl
    (fun p i => dictSet p (headers.getD i "") (pyStrip (cells.getD i ""))) []

/-- Per-row body of the `get_app_list` page loop (lines 281-292). -/
def appRowData (headers : List String) (r : AppRow) : List (String × String) :=
  let base := gridRowData headers r.cells
  match r.dataActions with
  | none => base
  | some a =>
    match reSearchVendorClients a.data with
    | none => base
    | some idStr => dictSet base "id" idStr

/-- Records extracted from one populated `get_app_list` page. -/
def appPageRecords (t : AppTable) : List (List (String × String)) :=
  (t.bodyRows.filter (fun r => ¬ r.cells.length < (appHeaders t).length)).map
    (appRowData (appHeaders t))

/-- The `for page in range(1, max_pages + 1)` loop of `get_app_list`,
returning the accumulated records and the pages actually fetched. -/
def appLoop (fetch : Nat → Fetch AppPage) :
    List Nat → List (List (String × String)) × List Nat
  | [] => ([], [])
  | p :: ps =>
    match fetch p with
    | .transportError => ([], [p])
    | .page pg =>
      match pg.table with
      | none => ([], [p])
      | some t =>
        if appHeaders t = [] then ([], [p])
        else if t.bodyRows = [] then ([], [p])
        else
          let r := appLoop fetch ps
          (appPageRecords t ++ r.1, p :: r.2)

/-- `get_app_list` from `src/libs/parser.py`. -/
def get_app_list (fetch : Nat → Fetch AppPage) : List (List (String × String)) :=
  (appLoop fetch (List.range' 1 maxPages)).1

/-- Pages fetched by `get_app_list`. -/
def get_app_list_pages (fetch : Nat → Fetch AppPage) : List Nat :=
  (appLoop fetch (List.range' 1 maxPages)).2

/-- The `table#mp24_client` element: `td` texts of the `tr.bx-grid-head`
header row (when found), and the cell texts of the rows whose class is
`None` or `' dru'`. -/
structure ClientTable where
  headerRow : Option (List String)
  rows : List (List String)
deriving DecidableEq, Repr

/-- A parsed `get_client_list` response page. -/
structure ClientPage where
  table : Option ClientTable
deriving DecidableEq, Repr

/-- `[td.text.strip() or 'actions' for td in header_row.find_all('td')]`. -/
def clientHeaders (hr : List String) : List String :=
  hr.map (fun td => if pyStrip td = "" then "actions" else pyStrip td)

/-- Records extracted from one populated `get_client_list` page. -/
def clientPageRecords (t : ClientTable) (headers : List String) :
    List (List (String × String)) :=
  (t.rows.filter (fun cells => headers.length ≤ cells.length)).map
    (gridRowData headers)

/-- The page loop of `get_client_list`, returning the accumulated records
and the pages actually fetched. -/
def clientLoop (fetch : Nat → Fetch ClientPage) :
    List Nat → List (List (String × String)) × List Nat
  | [] => ([], [])
  | p :: ps =>
    match fetch p with
    | .transportError => ([], [p])
    | .page pg =>
      match pg.table with
      | none => ([], [p])
      | some t =>
        match t.headerRow with
        | none => ([], [p])
        | some hr =>
          if t.rows.length ≤ 1 then ([], [p])
          else
            let r := clientLoop fetch ps
            (clientPageRecords t (clientHeaders hr) ++ r.1, p :: r.2)

/-- `get_client_list` from `src/libs/parser.py` (the `app_id` argument only
shapes the request and is absorbed into the abstract server function). -/
def get_client_list (fetch : Nat → Fetch ClientPage) : List (List (String × String)) :=
  (clientLoop fetch (List.range' 1 maxPages)).1

/-- Pages fetched by `get_client_list`. -/
def get_client_list_pages (fetch : Nat → Fetch ClientPage) : List Nat :=
  (clientLoop fetch (List.range' 1 maxPages)).2

/-! ## Lemmas about `upset_data` -/

/-- The column-to-declare type map of `upset_data`. -/
def declType (c : String) : YdbType :=
  if pyUpper c = "ID" then YdbType.int64 else YdbType.utf8

theorem buildRow_ok_spec (row : List (String × String)) (idx : Nat) :
    ∀ (cols : List String) (ds : List (String × YdbType)) (ps : List (String × YdbVal))
      (bs : List String), buildRow row idx cols = .ok (ds, ps, bs) →
      ds = cols.map (fun c => (paramName c idx, declType c)) ∧
      ps.map Prod.fst = cols.map (fun c => paramName c idx) ∧
      bs = cols.map (fun c => paramName c idx) := by
  intro cols
  induction cols with
  | nil =>
    intro ds ps bs h
    simp only [buildRow, Except.ok.injEq, Prod.mk.injEq] at h
    obtain ⟨rfl, rfl, rfl⟩ := h
    simp
  | cons col cs ih =>
    intro ds ps bs h
    cases hd : dictGet row col with
    | none => simp [buildRow, hd] at h
    | some v =>
      by_cases hid : pyUpper col = "ID"
      · cases hp : pyInt v with
        | none => simp [buildRow, hd, hid, hp] at h
        | some n =>
          cases hr : buildRow row idx cs with
          | error e => simp [buildRow, hd, hid, hp, hr] at h
          | ok t =>
            obtain ⟨ds', ps', bs'⟩ := t
            simp only [buildRow, hd, hid, hp, hr, if_pos, Except.ok.injEq,
              Prod.mk.injEq] at h
            obtain ⟨hds, hps, hbs⟩ := h
            obtain ⟨ih1, ih2, ih3⟩ := ih ds' ps' bs' hr
            subst hds hps hbs
            simp [List.map_cons, ih1, ih2, ih3, declType, hid]
      · cases hr : buildRow row idx cs with
        | error e => simp [buildRow, hd, hid, hr] at h
        | ok t =>
          obtain ⟨ds', ps', bs'⟩ := t
          simp only [buildRow, hd, hid, hr, if_neg, if_false, Except.ok.injEq,
            Prod.mk.injEq] at h
          obtain ⟨hds, hps, hbs⟩ := h
          obtain ⟨ih1, ih2, ih3⟩ := ih ds' ps' bs' hr
          subst hds hps hbs
          simp [List.map_cons, ih1, ih2, ih3, declType, hid]

theorem buildRows_ok_spec (cols : List String) :
    ∀ (rows : List (List (String × String))) (idx : Nat)
      (ds : List (String × YdbType)) (ps : List (String × YdbVal))
      (bss : List (List String)), buildRows cols idx rows = .ok (ds, ps, bss) →
      ds = (List.range' idx rows.length).flatMap
            (fun i => cols.map (fun c => (paramName c i, declType c))) ∧
      ps.map Prod.fst = (List.range' idx rows.length).flatMap
            (fun i => cols.map (fun c => paramName c i)) ∧
      bss = (List.range' idx rows.length).map
            (fun i => cols.map (fun c => paramName c i)) := by
  intro rows
  induction rows with
  | nil =>
    intro idx ds ps bss h
    simp only [buildRows, Except.ok.injEq, Prod.mk.injEq] at h
    obtain ⟨rfl, rfl, rfl⟩ := h
    simp
  | cons row rest ih =>
    intro idx ds ps bss h
    simp only [buildRows] at h
    cases hr : buildRow row idx cols with
    | error e => rw [hr] at h; simp at h
    | ok t =>
      obtain ⟨ds1, ps1, bs1⟩ := t
      rw [hr] at h
      cases hrs : buildRows cols (idx + 1) rest with
      | error e => rw [hrs] at h; simp at h
      | ok t2 =>
        obtain ⟨ds2, ps2, bss2⟩ := t2
        rw [hrs] at h
        simp only [Except.ok.injEq, Prod.mk.injEq] at h
        obtain ⟨hds, hps, hbs⟩ := h
        obtain ⟨h1, h2, h3⟩ := buildRow_ok_spec row idx cols ds1 ps1 bs1 hr
        obtain ⟨i1, i2, i3⟩ := ih (idx + 1) ds2 ps2 bss2 hrs
        subst hds hps hbs
        refine ⟨?_, ?_, ?_⟩
        · rw [List.length_cons, List.range'_succ, List.flatMap_cons, h1, i1]
        · rw [List.map_append, h2, i2, List.length_cons, List.range'_succ,
            List.flatMap_cons]
        · rw [List.length_cons, List.range'_succ, List.map_cons, h3, i3]

theorem paramNames_nodup (cols : List String) (hnd : cols.Nodup) (s n : Nat) :
    ((List.range' s n).flatMap (fun i => cols.map (fun c => paramName c i))).Nodup := by
  rw [List.nodup_flatMap]
  constructor
  · intro i _
    exact hnd.map (fun c1 c2 hcc => (paramName_inj c1 c2 i i hcc).1)
  · have hr : (List.range' s n).Pairwise (· ≠ ·) := List.nodup_range' s n 1 (by omega)
    refine hr.imp ?_
    intro i j hij x hx1 hx2
    obtain ⟨c1, _, rfl⟩ := List.mem_map.mp hx1
    obtain ⟨c2, _, heq⟩ := List.mem_map.mp hx2
    exact hij (paramName_inj c2 c1 j i heq).2.symm

theorem dictGet_isSome_of_mem {α : Type} (p : List (String × α)) (k : String)
    (h : k ∈ p.map Prod.fst) : ∃ v, dictGet p k = some v := by
  induction p with
  | nil => simp at h
  | cons hd t ih =>
    obtain ⟨k', w⟩ := hd
    by_cases hk : k' = k
    · subst hk; exact ⟨w, by simp [dictGet]⟩
    · simp only [List.map_cons, List.mem_cons] at h
      rcases h with h | h
      · exact absurd h.symm hk
      · obtain ⟨v, hv⟩ := ih h
        exact ⟨v, by simp [dictGet, hk, hv]⟩

theorem keySetEq_mem_right (a b : List String) (h : keySetEq a b = true) :
    ∀ k ∈ b, k ∈ a := by
  intro k hk
  simp only [keySetEq, Bool.and_eq_true, List.all_eq_true] at h
  have hc := h.2 k hk
  exact List.elem_iff.mp (by simpa [List.contains] using hc)

theorem length_flatMap_const {α β : Type} (f : α → List β) (C : Nat) :
    ∀ (l : List α), (∀ a ∈ l, (f a).length = C) →
      (l.flatMap f).length = l.length * C := by
  intro l
  induction l with
  | nil => simp
  | cons a t ih =>
    intro h
    simp only [List.flatMap_cons, List.length_append, List.length_cons]
    rw [h a (by simp), ih (fun x hx => h x (by simp [hx]))]
    ring

theorem buildRow_err (row : List (String × String)) (idx : Nat) :
    ∀ (cols : List String) (e : UpsetErr),
      (∀ c ∈ cols, ∃ v, dictGet row c = some v) →
      buildRow row idx cols = .error e → ∃ s, e = .intValueError s := by
  intro cols
  induction cols with
  | nil => intro e _ h; simp [buildRow] at h
  | cons col cs ih =>
    intro e hlook h
    obtain ⟨v, hv⟩ := hlook col (by simp)
    have hlook' : ∀ c ∈ cs, ∃ w, dictGet row c = some w :=
      fun c hc => hlook c (by simp [hc])
    by_cases hid : pyUpper col = "ID"
    · cases hp : pyInt v with
      | none =>
        simp only [buildRow, hv, hid, hp, if_pos, Except.error.injEq] at h
        exact ⟨v, h.symm⟩
      | some n =>
        cases hr : buildRow row idx cs with
        | error e2 =>
          simp only [buildRow, hv, hid, hp, hr, if_pos, Except.error.injEq] at h
          obtain ⟨s, hs⟩ := ih e2 hlook' hr
          exact ⟨s, h ▸ hs⟩
        | ok t =>
          obtain ⟨a, b, c⟩ := t
          simp [buildRow, hv, hid, hp, hr] at h
    · cases hr : buildRow row idx cs with
      | error e2 =>
        simp only [buildRow, hv, hid, hr, if_neg, if_false, Except.error.injEq] at h
        obtain ⟨s, hs⟩ := ih e2 hlook' hr
        exact ⟨s, h ▸ hs⟩
      | ok t =>
        obtain ⟨a, b, c⟩ := t
        simp [buildRow, hv, hid, hr] at h

theorem buildRow_ok_intParse (row : List (String × String)) (idx : Nat) :
    ∀ (cols : List String)
      (res : List (String × YdbType) × List (String × YdbVal) × List String),
      buildRow row idx cols = .ok res →
      ∀ c ∈ cols, pyUpper c = "ID" → ∀ v, dictGet row c = some v → pyInt v ≠ none := by
  intro cols
  induction cols with
  | nil => intro res _ c hc; simp at hc
  | cons col cs ih =>
    intro res h c hc hid v hv hbad
    cases hd : dictGet row col with
    | none => simp [buildRow, hd] at h
    | some w =>
      rcases List.mem_cons.mp hc with rfl | hc'
      · rw [hd] at hv
        obtain rfl : w = v := by injection hv
        simp [buildRow, hd, hid, hbad] at h
      · by_cases hid2 : pyUpper col = "ID"
        · cases hp : pyInt w with
          | none => simp [buildRow, hd, hid2, hp] at h
          | some n =>
            cases hr : buildRow row idx cs with
            | error e => simp [buildRow, hd, hid2, hp, hr] at h
            | ok t => exact ih t hr c hc' hid v hv hbad
        · cases hr : buildRow row idx cs with
          | error e => simp [buildRow, hd, hid2, hr] at h
          | ok t => exact ih t hr c hc' hid v hv hbad

theorem buildRows_err (cols : List String) :
    ∀ (rows : List (List (String × String))) (idx : Nat) (e : UpsetErr),
      (∀ r ∈ rows, ∀ c ∈ cols, ∃ v, dictGet r c = some v) →
      buildRows cols idx rows = .error e → ∃ s, e = .intValueError s := by
  intro rows
  induction rows with
  | nil => intro idx e _ h; simp [buildRows] at h
  | cons row rest ih =>
    intro idx e hlook h
    cases hr : buildRow row idx cols with
    | error e2 =>
      simp only [buildRows, hr, Except.error.injEq] at h
      obtain ⟨s, hs⟩ := buildRow_err row idx cols e2 (hlook row (by simp)) hr
      exact ⟨s, h ▸ hs⟩
    | ok t =>
      obtain ⟨ds, ps, bs⟩ := t
      cases hrs : buildRows cols (idx + 1) rest with
      | error e2 =>
        simp only [buildRows, hr, hrs, Except.error.injEq] at h
        obtain ⟨s, hs⟩ := ih (idx + 1) e2 (fun r hrm => hlook r (by simp [hrm])) hrs
        exact ⟨s, h ▸ hs⟩
      | ok t2 =>
        obtain ⟨ds2, ps2, bss2⟩ := t2
        simp [buildRows, hr, hrs] at h

theorem buildRows_ok_intParse (cols : List String) :
    ∀ (rows : List (List (String × String))) (idx : Nat)
      (res : List (String × YdbType) × List (String × YdbVal) × List (List String)),
      buildRows cols idx rows = .ok res →
      ∀ r ∈ rows, ∀ c ∈ cols, pyUpper c = "ID" → ∀ v, dictGet r c = some v →
        pyInt v ≠ none := by
  intro rows
  induction rows with
  | nil => intro idx res _ r hr; simp at hr
  | cons row rest ih =>
    intro idx res h r hr c hc hid v hv hbad
    cases hbrow : buildRow row idx cols with
    | error e => simp [buildRows, hbrow] at h
    | ok t =>
      cases hrs : buildRows cols (idx + 1) rest with
      | error e =>
        obtain ⟨ds, ps, bs⟩ := t
        simp [buildRows, hbrow, hrs] at h
      | ok t2 =>
        rcases List.mem_cons.mp hr with rfl | hr'
        · exact buildRow_ok_intParse r idx cols t hbrow c hc hid v hv hbad
        · exact ih (idx + 1) t2 hrs r hr' c hc hid v hv hbad

/-! ## Claim theorems for `upset_data` -/

/-- C1 counterexample: on the empty batch `upset_data` does not raise the
uniform-structure `ValidationError` (`ValueError`); it raises `IndexError`
from `data[0]` before the validation check is reached. -/
theorem c1_empty_batch_cex :
    upset_data "payments" [] = Except.error UpsetErr.indexError ∧
    UpsetErr.indexError ≠ UpsetErr.validationError := by
  exact ⟨rfl, by decide⟩

/-- C1 (amended): an empty batch makes `upset_data` raise `IndexError`
(from `data[0]`), and a non-empty batch in which some record's key set
differs from the first record's key set (compared as sets) makes it raise
the `ValidationError` (`ValueError`); in both cases the function returns an
error, so no query is prepared or executed. -/
theorem c1_batch_validation (table : String) (data : List (List (String × String))) :
    (data = [] → upset_data table data = Except.error UpsetErr.indexError) ∧
    (∀ first rest, data = first :: rest →
      ∀ item ∈ data, keySetEq (item.map Prod.fst) (first.map Prod.fst) = false →
      upset_data table data = Except.error UpsetErr.validationError) := by
  constructor
  · rintro rfl; rfl
  · rintro first rest rfl item hitem hne
    have hall : ¬ ((first :: rest).all fun it =>
        keySetEq (it.map Prod.fst) (first.map Prod.fst)) = true := by
      intro hall
      have := List.all_eq_true.mp hall item hitem
      rw [hne] at this
      exact Bool.false_ne_true this
    simp only [upset_data, if_pos hall]

/-- C1 witness: the two error branches at concrete batches. -/
theorem c1_batch_validation_w :
    upset_data "t" ([] : List (List (String × String))) = Except.error UpsetErr.indexError ∧
    upset_data "t" [[("A", "1")], [("B", "2")]] = Except.error UpsetErr.validationError := by
  refine ⟨(c1_batch_validation "t" []).1 rfl, ?_⟩
  exact (c1_batch_validation "t" [[("A", "1")], [("B", "2")]]).2
    [("A", "1")] [[("B", "2")]] rfl [("B", "2")] (by decide) (by decide)

/-- C2: for a non-empty batch `first :: rest` (with the first record's keys
pairwise distinct, as Python dict keys are) on which `upset_data` builds a
statement, that statement declares exactly `N * C` parameters with pairwise
distinct names (`N` records, `C` columns), binds exactly those parameter
names, contains exactly `N` value tuples, the `i`-th tuple referencing the
`C` synthesized parameter names of row `i` in column order, and declares a
parameter as `Int64` exactly when its column name case-insensitively equals
`"ID"`, else as `Utf8`. -/
theorem c2_statement_shape (table : String) (first : List (String × String))
    (rest : List (List (String × String))) (stmt : Stmt)
    (hnd : (first.map Prod.fst).Nodup)
    (hok : upset_data table (first :: rest) = Except.ok stmt) :
    stmt.columns = first.map Prod.fst ∧
    stmt.declares.length = (first :: rest).length * (first.map Prod.fst).length ∧
    (stmt.declares.map Prod.fst).Nodup ∧
    stmt.paramValues.map Prod.fst = stmt.declares.map Prod.fst ∧
    stmt.valueTuples.length = (first :: rest).length ∧
    stmt.valueTuples = (List.range' 0 (first :: rest).length).map
      (fun i => (first.map Prod.fst).map (fun c => paramName c i)) ∧
    stmt.declares = (List.range' 0 (first :: rest).length).flatMap
      (fun i => (first.map Prod.fst).map (fun c => (paramName c i,
        if pyUpper c = "ID" then YdbType.int64 else YdbType.utf8))) := by
  simp only [upset_data] at hok
  split at hok
  · exact absurd hok (by simp)
  · cases hbr : buildRows (first.map Prod.fst) 0 (first :: rest) with
    | error e => rw [hbr] at hok; exact absurd hok (by simp)
    | ok t =>
      obtain ⟨ds, ps, bss⟩ := t
      rw [hbr] at hok
      simp only [Except.ok.injEq] at hok
      subst hok
      obtain ⟨hds, hps, hbss⟩ :=
        buildRows_ok_spec (first.map Prod.fst) (first :: rest) 0 ds ps bss hbr
      have hdsn : ds.map Prod.fst = (List.range' 0 (first :: rest).length).flatMap
          (fun i => (first.map Prod.fst).map (fun c => paramName c i)) := by
        rw [hds, List.map_flatMap]
        refine congrArg _ (funext fun i => ?_)
        simp [List.map_map]
      refine ⟨rfl, ?_, ?_, ?_, ?_, ?_, ?_⟩
      · show ds.length = _
        rw [hds]
        rw [length_flatMap_const _ ((first.map Prod.fst).length) _
          (fun i _ => List.length_map _ _), List.length_range']
      · show (ds.map Prod.fst).Nodup
        rw [hdsn]; exact paramNames_nodup _ hnd 0 _
      · show ps.map Prod.fst = ds.map Prod.fst
        rw [hps, hdsn]
      · show bss.length = _
        rw [hbss, List.length_map, List.length_range']
      · exact hbss
      · show ds = _
        rw [hds]
        simp only [declType]

/-- C2 witness batch statement (computed value of `upset_data`). -/
def c2Stmt : Stmt :=
  { declares := [("$ID_0", YdbType.int64), ("$NAME_0", YdbType.utf8),
      ("$ID_1", YdbType.int64), ("$NAME_1", YdbType.utf8)],
    paramValues := [("$ID_0", YdbVal.vInt 7), ("$NAME_0", YdbVal.vStr "a"),
      ("$ID_1", YdbVal.vInt 8), ("$NAME_1", YdbVal.vStr "b")],
    columns := ["ID", "NAME"],
    valueTuples := [["$ID_0", "$NAME_0"], ["$ID_1", "$NAME_1"]],
    queryText := "\n    DECLARE $ID_0 AS Int64; DECLARE $NAME_0 AS Utf8; DECLARE $ID_1 AS Int64; DECLARE $NAME_1 AS Utf8;\n    UPSERT INTO `t` (ID, NAME)\n    VALUES ($ID_0, $NAME_0), ($ID_1, $NAME_1);\n    " }

/-- C2 witness: the shape properties at a concrete two-record batch whose
second record lists its columns in a different order. -/
theorem c2_statement_shape_w :
    c2Stmt.columns = ["ID", "NAME"] ∧
    c2Stmt.declares.length = 2 * 2 ∧
    (c2Stmt.declares.map Prod.fst).Nodup ∧
    c2Stmt.paramValues.map Prod.fst = c2Stmt.declares.map Prod.fst ∧
    c2Stmt.valueTuples.length = 2 ∧
    c2Stmt.valueTuples = (List.range' 0 2).map
      (fun i => (["ID", "NAME"] : List String).map (fun c => paramName c i)) ∧
    c2Stmt.declares = (List.range' 0 2).flatMap
      (fun i => (["ID", "NAME"] : List String).map (fun c => (paramName c i,
        if pyUpper c = "ID" then YdbType.int64 else YdbType.utf8))) := by
  have h := c2_statement_shape "t" [("ID", "7"), ("NAME", "a")]
    [[("NAME", "b"), ("ID", "8")]] c2Stmt (by decide) (by rfl)
  exact h

/-- C10: for a non-empty batch passing the uniform-key-set validation, if
some column name case-insensitively equals `"ID"` and some record's value
in that column is not a valid Python integer literal, `upset_data` raises a
`ValueError` from `int(row[col])` and never reaches a prepared statement —
no query is prepared or executed. -/
theorem c10_id_int_parse (table : String) (first : List (String × String))
    (rest : List (List (String × String)))
    (hval : ((first :: rest).all fun item =>
        keySetEq (item.map Prod.fst) (first.map Prod.fst)) = true)
    (col : String) (hcol : col ∈ first.map Prod.fst) (hid : pyUpper col = "ID")
    (row : List (String × String)) (hrow : row ∈ first :: rest)
    (v : String) (hv : dictGet row col = some v) (hbad : pyInt v = none) :
    (∃ s, upset_data table (first :: rest) = Except.error (UpsetErr.intValueError s)) ∧
    ∀ stmt, upset_data table (first :: rest) ≠ Except.ok stmt := by
  have hlook : ∀ r ∈ first :: rest, ∀ c ∈ first.map Prod.fst,
      ∃ w, dictGet r c = some w := by
    intro r hr c hc
    have hks := List.all_eq_true.mp hval r hr
    exact dictGet_isSome_of_mem r c (keySetEq_mem_right _ _ hks c hc)
  cases hbr : buildRows (first.map Prod.fst) 0 (first :: rest) with
  | ok t =>
    exact absurd hbad
      (buildRows_ok_intParse (first.map Prod.fst) (first :: rest) 0 t hbr
        row hrow col hcol hid v hv)
  | error e =>
    obtain ⟨s, rfl⟩ := buildRows_err (first.map Prod.fst) (first :: rest) 0 e hlook hbr
    have hne : ¬ ¬ ((first :: rest).all fun item =>
        keySetEq (item.map Prod.fst) (first.map Prod.fst)) = true := by
      simp [hval]
    constructor
    · exact ⟨s, by simp only [upset_data, if_neg hne, hbr]⟩
    · intro stmt h
      simp only [upset_data, if_neg hne, hbr] at h
      exact absurd h (by simp)

/-- C10 witness: a batch whose identifier cell is not an integer literal. -/
theorem c10_id_int_parse_w :
    (∃ s, upset_data "t" [[("ID", "foo")]]
        = Except.error (UpsetErr.intValueError s)) ∧
    ∀ stmt, upset_data "t" [[("ID", "foo")]] ≠ Except.ok stmt := by
  exact c10_id_int_parse "t" [("ID", "foo")] [] (by decide) "ID" (by decide)
    (by decide) [("ID", "foo")] (by decide) "foo" (by decide) (by decide)

/-! ## Lemmas about `_parse_csv_payments` -/

theorem string_append_assoc (a b c : String) : (a ++ b) ++ c = a ++ (b ++ c) :=
  string_eq_of_data_eq _ _ (by
    rw [string_data_append, string_data_append, string_data_append,
      string_data_append, List.append_assoc])

theorem dictGet_foldl_of_not_mem {α : Type} (f : String → String → α) :
    ∀ (l : List (String × String)) (p : List (String × α)) (k : String),
      k ∉ l.map Prod.fst →
      dictGet (l.foldl (fun p kv => dictSet p kv.1 (f kv.1 kv.2)) p) k = dictGet p k := by
  intro l
  induction l with
  | nil => intro p k _; rfl
  | cons kv t ih =>
    intro p k hk
    simp only [List.map_cons, List.mem_cons, not_or] at hk
    rw [List.foldl_cons, ih _ k hk.2,
      dictGet_dictSet_ne _ _ _ _ (fun h => hk.1 h.symm)]

theorem dictGet_foldl_of_mem {α : Type} (f : String → String → α) :
    ∀ (l : List (String × String)) (p : List (String × α)) (k v : String),
      (l.map Prod.fst).Nodup → (k, v) ∈ l →
      dictGet (l.foldl (fun p kv => dictSet p kv.1 (f kv.1 kv.2)) p) k
        = some (f k v) := by
  intro l
  induction l with
  | nil => intro p k v _ hm; simp at hm
  | cons kv t ih =>
    intro p k v hnd hm
    simp only [List.map_cons, List.nodup_cons] at hnd
    rcases List.mem_cons.mp hm with heq | hm'
    · obtain ⟨rfl, rfl⟩ : kv.1 = k ∧ kv.2 = v := by
        rw [Prod.ext_iff] at heq; exact ⟨heq.1.symm, heq.2.symm⟩
      rw [List.foldl_cons, dictGet_foldl_of_not_mem f t _ _ hnd.1,
        dictGet_dictSet_self]
    · rw [List.foldl_cons]
      exact ih _ k v hnd.2 hm'

theorem map_fst_zip_sublist {α β : Type} :
    ∀ (l1 : List α) (l2 : List β), ((l1.zip l2).map Prod.fst).Sublist l1 := by
  intro l1
  induction l1 with
  | nil => intro l2; simp
  | cons a t ih =>
    intro l2
    cases l2 with
    | nil => simp
    | cons b t2 =>
      simp only [List.zip_cons_cons, List.map_cons]
      exact (ih t2).cons₂ a

/-- A field whose key occurs in a duplicate-free header gets exactly its
coerced value in the built payment dict. -/
theorem dictGet_procRow (header : List String) (row : List String) (k v : String)
    (hnd : header.Nodup) (hm : (k, v) ∈ header.zip row) :
    dictGet (procRow header row) k = some (coerceField k v) :=
  dictGet_foldl_of_mem coerceField (header.zip row) [] k v
    ((map_fst_zip_sublist header row).nodup hnd) hm

/-- In standard mode the row loop is exactly: keep the multi-field rows,
build each payment, keep those with a truthy `ID`. -/
theorem stepRows_std (d : PyDateTime) (header : List String) :
    ∀ rows : List (List String), stepRows d false header rows =
      Except.ok (((rows.filter (fun r => 1 < r.length)).map (procRow header)).filter
        (fun p => pyTruthy (dictGet p "ID"))) := by
  intro rows
  induction rows with
  | nil => rfl
  | cons row rest ih =>
    by_cases h : row.length ≤ 1
    · have h2 : ¬ (1 < row.length) := by omega
      simp [stepRows, h, h2, ih]
    · have h2 : 1 < row.length := by omega
      by_cases ht : pyTruthy (dictGet (procRow header row) "ID")
      · simp [stepRows, h, h2, ht, ih]
      · simp [stepRows, h, h2, ht, ih]

theorem premiumFields_ok (d : PyDateTime) (p p2 : List (String × PyVal))
    (h : premiumFields d p = .ok p2) :
    ∃ mid, dictGet p "MEMBER_ID" = some (.str mid) ∧
      p2 = dictSet (dictSet p "hash"
        (.str (sha256Hex (utf8Bytes (mid ++ fmt01mY d))))) "DATE_PARSE"
        (.str (fmtYm01 d)) := by
  cases hm : dictGet p "MEMBER_ID" with
  | none => simp [premiumFields, hm] at h
  | some w =>
    cases w with
    | num n e => simp [premiumFields, hm] at h
    | str mid =>
      simp only [premiumFields, hm, Except.ok.injEq] at h
      exact ⟨mid, rfl, h.symm⟩

/-- In premium mode a successful row loop keeps every multi-field row and
stamps each record with the derived `hash` and `DATE_PARSE` fields. -/
theorem stepRows_prem (d : PyDateTime) (header : List String) :
    ∀ (rows : List (List String)) (ps : List (List (String × PyVal))),
      stepRows d true header rows = .ok ps →
      ps.length = (rows.filter (fun r => 1 < r.length)).length ∧
      ∀ p ∈ ps, ∃ mid,
        dictGet p "MEMBER_ID" = some (.str mid) ∧
        dictGet p "hash" = some (.str (sha256Hex (utf8Bytes (mid ++ fmt01mY d)))) ∧
        dictGet p "DATE_PARSE" = some (.str (fmtYm01 d)) := by
  intro rows
  induction rows with
  | nil =>
    intro ps h
    simp only [stepRows, Except.ok.injEq] at h
    subst h
    simp
  | cons row rest ih =>
    intro ps h
    by_cases hle : row.length ≤ 1
    · have h2 : ¬ (1 < row.length) := by omega
      simp only [stepRows, if_pos hle] at h
      simpa [h2] using ih ps h
    · have h2 : 1 < row.length := by omega
      simp only [stepRows, if_neg hle] at h
      rw [if_pos trivial] at h
      cases hpf : premiumFields d (procRow header row) with
      | error e => rw [hpf] at h; simp at h
      | ok p2 =>
        rw [hpf] at h
        cases hrs : stepRows d true header rest with
        | error e => rw [hrs] at h; simp at h
        | ok ps' =>
          rw [hrs] at h
          simp only [Except.ok.injEq] at h
          subst h
          obtain ⟨hlen, hfields⟩ := ih ps' hrs
          obtain ⟨mid, hmid, hp2⟩ := premiumFields_ok d _ _ hpf
          refine ⟨by simp [h2, hlen], ?_⟩
          intro p hp
          rcases List.mem_cons.mp hp with rfl | hp'
          · refine ⟨mid, ?_, ?_, ?_⟩
            · rw [hp2, dictGet_dictSet_ne _ _ _ _ (by decide),
                dictGet_dictSet_ne _ _ _ _ (by decide)]
              exact hmid
            · rw [hp2, dictGet_dictSet_ne _ _ _ _ (by decide), dictGet_dictSet_self]
            · rw [hp2, dictGet_dictSet_self]
          · exact hfields p hp'

/-- Rows with at most one field are all skipped, in either mode. -/
theorem stepRows_skip (d : PyDateTime) (prem : Bool) (header : List String) :
    ∀ rows : List (List String), (∀ r ∈ rows, r.length ≤ 1) →
      stepRows d prem header rows = .ok [] := by
  intro rows
  induction rows with
  | nil => intro _; rfl
  | cons row rest ih =>
    intro h
    have h1 : row.length ≤ 1 := h row (by simp)
    simp only [stepRows, if_pos h1]
    exact ih (fun r hr => h r (by simp [hr]))

/-! ## Claim theorems for `_parse_csv_payments` -/

/-- C3 counterexample: the documented end-to-end scenario is wrong about
the `X` column. Parsing `"ID;AMOUNT;DATE_OF_USE;X\n1;1 234,56;01.06.2024;foo\n"`
in standard mode does not yield a record containing `X ↦ "foo"`: the code
drops the last header column (`next(reader)[:-1]`), so `X` is absent from
the record altogether (shown by the explicit result below having no `"X"`
key in any order). -/
theorem c3_x_column_cex :
    parse_csv_payments ⟨2024, 7, 15⟩
        "ID;AMOUNT;DATE_OF_USE;X\n1;1 234,56;01.06.2024;foo\n" false
      = Except.ok [[("ID", PyVal.str "1"), ("AMOUNT", PyVal.num 123456 2),
          ("DATE_OF_USE", PyVal.str "2024-06-01")]] ∧
    dictGet [("ID", PyVal.str "1"), ("AMOUNT", PyVal.num 123456 2),
        ("DATE_OF_USE", PyVal.str "2024-06-01")] "X" = (none : Option PyVal) ∧
    parse_csv_payments ⟨2024, 7, 15⟩
        "ID;AMOUNT;DATE_OF_USE;X\n1;1 234,56;01.06.2024;foo\n" false
      ≠ Except.ok [[("ID", PyVal.str "1"), ("AMOUNT", PyVal.num 123456 2),
          ("DATE_OF_USE", PyVal.str "2024-06-01"), ("X", PyVal.str "foo")]] := by
  exact ⟨by decide, by decide, by decide⟩

/-- C3 (amended): parsing the CSV body
`"ID;AMOUNT;DATE_OF_USE;X\n1;1 234,56;01.06.2024;foo\n"` in standard mode
(for any run reference date) yields exactly one record
`{ID ↦ "1", AMOUNT ↦ 1234.56, DATE_OF_USE ↦ "2024-06-01"}`: the final
header column `X` is dropped as the trailing artifact and the value
`"foo"` with it; amount strings drop spaces, turn the comma into a period
and parse as a number (`num 123456 2` is `1234.56`), and `DD.MM.YYYY`
dates are rewritten as `YYYY-MM-DD`. -/
theorem c3_end_to_end (d : PyDateTime) :
    parse_csv_payments d "ID;AMOUNT;DATE_OF_USE;X\n1;1 234,56;01.06.2024;foo\n" false
      = Except.ok [[("ID", PyVal.str "1"), ("AMOUNT", PyVal.num 123456 2),
          ("DATE_OF_USE", PyVal.str "2024-06-01")]] ∧
    amountNormalize "1 234,56" = "1234.56" ∧
    pyFloat "1234.56" = some (123456, 2) ∧
    (pyStrptimeDMY "01.06.2024").map fmtYmd = some "2024-06-01" := by
  refine ⟨?_, by decide, by decide, by decide⟩
  rfl

/-- C4 counterexample: the premium `hash` does not differ whenever the run
reference date differs — two different dates in the same month produce
identical records (the hash input uses only the month and year). -/
theorem c4_day_ignored_cex :
    (⟨2024, 7, 15⟩ : PyDateTime) ≠ (⟨2024, 7, 16⟩ : PyDateTime) ∧
    parse_csv_payments ⟨2024, 7, 15⟩ "MEMBER_ID;AMOUNT;\n42;5;\n" true
      = parse_csv_payments ⟨2024, 7, 16⟩ "MEMBER_ID;AMOUNT;\n42;5;\n" true := by
  exact ⟨by decide, by decide⟩

/-- C4 (amended): every premium record's `hash` is the hex SHA-256 of
`memberId ++ "01-" ++ MM ++ "-" ++ YYYY` built from the run reference
date; the preimage determines the member id, month and year (for 2-digit
months and 4-digit years), so the hash input — though not necessarily the
digest — differs whenever the member id, month or year differ; the hash
depends on the date only through month and year; and the concrete instance
`"42"` with reference date 2024-07-15 hashes `"4201-07-2024"`. -/
theorem c4_premium_hash (d : PyDateTime) (content : String)
    (ps : List (List (String × PyVal)))
    (hok : parse_csv_payments d content true = Except.ok ps) :
    (∀ p ∈ ps, ∃ mid, dictGet p "MEMBER_ID" = some (PyVal.str mid) ∧
      dictGet p "hash" = some (PyVal.str (sha256Hex (utf8Bytes
        (mid ++ "01-" ++ pad2 d.month ++ "-" ++ pad4 d.year))))) ∧
    (∀ (m1 m2 : String) (d1 d2 : PyDateTime), d1.month ≤ 99 → d2.month ≤ 99 →
      d1.year ≤ 9999 → d2.year ≤ 9999 →
      m1 ++ fmt01mY d1 = m2 ++ fmt01mY d2 →
      m1 = m2 ∧ d1.month = d2.month ∧ d1.year = d2.year) ∧
    (∀ (mid : String) (d1 d2 : PyDateTime), d1.month = d2.month →
      d1.year = d2.year →
      sha256Hex (utf8Bytes (mid ++ fmt01mY d1))
        = sha256Hex (utf8Bytes (mid ++ fmt01mY d2))) ∧
    sha256Hex (utf8Bytes ("42" ++ fmt01mY ⟨2024, 7, 15⟩))
      = "664a375b0958a6a57fe1cfab5cd608a40359ce20a9c583ff58f98e2f4a065e3c" := by
  refine ⟨?_, ?_, ?_, by decide⟩
  · cases hlex : lexCsv content.data with
    | nil => simp [parse_csv_payments, hlex] at hok
    | cons headerRow dataRows =>
      simp only [parse_csv_payments, hlex] at hok
      intro p hp
      obtain ⟨mid, h1, h2, _⟩ :=
        (stepRows_prem d headerRow.dropLast dataRows ps hok).2 p hp
      refine ⟨mid, h1, ?_⟩
      have hassoc : mid ++ fmt01mY d
          = mid ++ "01-" ++ pad2 d.month ++ "-" ++ pad4 d.year := by
        simp [fmt01mY, string_append_assoc]
      rw [h2, hassoc]
  · intro m1 m2 d1 d2 hm1 hm2 hy1 hy2 heq
    have h := congrArg String.data heq
    rw [string_data_append, string_data_append] at h
    have e1 : (fmt01mY d1).data = ['0', '1', '-', digitChar (d1.month / 10),
        digitChar d1.month, '-', digitChar (d1.year / 1000),
        digitChar (d1.year / 100), digitChar (d1.year / 10),
        digitChar d1.year] := rfl
    have e2 : (fmt01mY d2).data = ['0', '1', '-', digitChar (d2.month / 10),
        digitChar d2.month, '-', digitChar (d2.year / 1000),
        digitChar (d2.year / 100), digitChar (d2.year / 10),
        digitChar d2.year] := rfl
    rw [e1, e2] at h
    obtain ⟨hpre, hsuf⟩ := List.append_inj' h (by simp)
    refine ⟨string_eq_of_data_eq _ _ hpre, ?_, ?_⟩
    · simp only [List.cons.injEq, and_true, true_and] at hsuf
      have c1 := congrArg Char.toNat hsuf.1
      have c2 := congrArg Char.toNat hsuf.2.1
      rw [toNat_digitChar, toNat_digitChar] at c1 c2
      omega
    · simp only [List.cons.injEq, and_true, true_and] at hsuf
      have c3 := congrArg Char.toNat hsuf.2.2.1
      have c4 := congrArg Char.toNat hsuf.2.2.2.1
      have c5 := congrArg Char.toNat hsuf.2.2.2.2.1
      have c6 := congrArg Char.toNat hsuf.2.2.2.2.2
      rw [toNat_digitChar, toNat_digitChar] at c3 c4 c5 c6
      omega
  · intro mid d1 d2 h1 h2
    have : fmt01mY d1 = fmt01mY d2 := by rw [fmt01mY, fmt01mY, h1, h2]
    rw [this]

/-- C5: in standard mode, the output is exactly the multi-field rows, each
turned into a payment record, filtered by Python truthiness of the `ID`
field (present and non-empty) — so a row is included iff it carries a
non-empty identifier, independently of coercion outcomes; any field whose
key occurs in a duplicate-free header stores exactly its coerced value;
`ID` itself is never coerced; and a failed amount/date coercion keeps the
raw string for just that field. -/
theorem c5_standard_filtering (d : PyDateTime) (content : String)
    (headerRow : List String) (dataRows : List (List String))
    (hlex : lexCsv content.data = headerRow :: dataRows) :
    parse_csv_payments d content false = Except.ok
      (((dataRows.filter (fun r => 1 < r.length)).map
          (procRow headerRow.dropLast)).filter
        (fun p => pyTruthy (dictGet p "ID"))) ∧
    (∀ (row : List String) (k v : String), headerRow.dropLast.Nodup →
      (k, v) ∈ headerRow.dropLast.zip row →
      dictGet (procRow headerRow.dropLast row) k = some (coerceField k v)) ∧
    (∀ v, coerceField "ID" v = PyVal.str v) ∧
    (∀ k v, (k ∈ amountKeys → pyFloat (amountNormalize v) = none) →
      (k ∈ dateKeys → pyStrptimeDMY v = none) →
      coerceField k v = PyVal.str v) := by
  refine ⟨?_, ?_, ?_, ?_⟩
  · simp only [parse_csv_payments, hlex]
    exact stepRows_std d headerRow.dropLast dataRows
  · intro row k v hnd hm
    exact dictGet_procRow _ row k v hnd hm
  · intro v
    rfl
  · intro k v h1 h2
    by_cases ha : k ∈ amountKeys
    · simp [coerceField, ha, h1 ha]
    · by_cases hd : k ∈ dateKeys
      · simp [coerceField, ha, hd, h2 hd]
      · simp [coerceField, ha, hd]

/-- C5 witness: a three-row standard batch — a kept row whose `AMOUNT`
fails coercion and stays raw, a dropped row with empty `ID`, and a dropped
single-field row. -/
theorem c5_standard_filtering_w :
    parse_csv_payments ⟨2024, 7, 15⟩ "ID;AMOUNT;\n1;bad;\n;x;\nz\n" false
      = Except.ok [[("ID", PyVal.str "1"), ("AMOUNT", PyVal.str "bad")]] ∧
    dictGet (procRow ["ID", "AMOUNT"] ["1", "bad", ""]) "AMOUNT"
      = some (coerceField "AMOUNT" "bad") ∧
    coerceField "AMOUNT" "bad" = PyVal.str "bad" ∧
    coerceField "ID" "1" = PyVal.str "1" := by
  have h := c5_standard_filtering ⟨2024, 7, 15⟩ "ID;AMOUNT;\n1;bad;\n;x;\nz\n"
    ["ID", "AMOUNT", ""] [["1", "bad", ""], ["", "x", ""], ["z"]] (by decide)
  refine ⟨h.1.trans (by decide), ?_, ?_, h.2.2.1 "1"⟩
  · exact h.2.1 ["1", "bad", ""] "AMOUNT" "bad" (by decide) (by decide)
  · exact h.2.2.2 "AMOUNT" "bad" (fun _ => by decide)
      (fun hk => absurd hk (by decide))

/-- C6: in premium mode, when parsing succeeds every data row (more than
one field) contributes exactly one record — no identifier-based filtering —
and every record carries the derived `hash` (from its `MEMBER_ID` and the
run reference date) and `DATE_PARSE` equal to `YYYY-MM-01` of the run
reference date, not of any row field. -/
theorem c6_premium_keep_all (d : PyDateTime) (content : String)
    (headerRow : List String) (dataRows : List (List String))
    (hlex : lexCsv content.data = headerRow :: dataRows)
    (ps : List (List (String × PyVal)))
    (hok : parse_csv_payments d content true = Except.ok ps) :
    ps.length = (dataRows.filter (fun r => 1 < r.length)).length ∧
    ∀ p ∈ ps, ∃ mid,
      dictGet p "MEMBER_ID" = some (PyVal.str mid) ∧
      dictGet p "hash" = some (PyVal.str (sha256Hex (utf8Bytes (mid ++ fmt01mY d)))) ∧
      dictGet p "DATE_PARSE" = some (PyVal.str (fmtYm01 d)) := by
  simp only [parse_csv_payments, hlex] at hok
  exact stepRows_prem d headerRow.dropLast dataRows ps hok

/-- C9: a CSV body whose row stream is a header followed by no data rows
(rows of at most one field) parses to the empty list in either report
mode, with no error. -/
theorem c9_header_only (d : PyDateTime) (prem : Bool) (content : String)
    (headerRow : List String) (rest : List (List String))
    (hlex : lexCsv content.data = headerRow :: rest)
    (hempty : ∀ r ∈ rest, r.length ≤ 1) :
    parse_csv_payments d content prem = Except.ok [] := by
  simp only [parse_csv_payments, hlex]
  exact stepRows_skip d prem headerRow.dropLast rest hempty

/-- C9 witness: a header-only export, in both modes. -/
theorem c9_header_only_w :
    parse_csv_payments ⟨2024, 7, 15⟩ "ID;AMOUNT;DATE_OF_USE;\n" false
      = Except.ok [] ∧
    parse_csv_payments ⟨2024, 7, 15⟩ "ID;AMOUNT;DATE_OF_USE;\n" true
      = Except.ok [] := by
  exact ⟨c9_header_only ⟨2024, 7, 15⟩ false "ID;AMOUNT;DATE_OF_USE;\n"
      ["ID", "AMOUNT", "DATE_OF_USE", ""] [] (by decide) (by decide),
    c9_header_only ⟨2024, 7, 15⟩ true "ID;AMOUNT;DATE_OF_USE;\n"
      ["ID", "AMOUNT", "DATE_OF_USE", ""] [] (by decide) (by decide)⟩

/-- The single record of the C4 witness parse. -/
def c4Rec : List (String × PyVal) :=
  [("MEMBER_ID", PyVal.str "42"), ("AMOUNT", PyVal.num 5 0),
   ("hash", PyVal.str "664a375b0958a6a57fe1cfab5cd608a40359ce20a9c583ff58f98e2f4a065e3c"),
   ("DATE_PARSE", PyVal.str "2024-07-01")]

/-- C4 witness: the amended claim instantiated at member id `"42"` and
reference date 2024-07-15. -/
theorem c4_premium_hash_w :
    dictGet c4Rec "hash" = some (PyVal.str (sha256Hex (utf8Bytes
      ("42" ++ "01-" ++ pad2 7 ++ "-" ++ pad4 2024)))) ∧
    ("a" = "a" ∧ (7 : Nat) = 7 ∧ (2024 : Nat) = 2024) ∧
    sha256Hex (utf8Bytes ("42" ++ fmt01mY ⟨2024, 7, 15⟩))
      = "664a375b0958a6a57fe1cfab5cd608a40359ce20a9c583ff58f98e2f4a065e3c" := by
  have h := c4_premium_hash ⟨2024, 7, 15⟩ "MEMBER_ID;AMOUNT;\n42;5;\n" [c4Rec] (by decide)
  obtain ⟨mid, hm, hh⟩ := h.1 c4Rec (by decide)
  have hmid : mid = "42" := by
    have h2 := hm.symm.trans
      (by decide : dictGet c4Rec "MEMBER_ID" = some (PyVal.str "42"))
    exact PyVal.str.inj (Option.some.inj h2)
  subst hmid
  exact ⟨hh, h.2.1 "a" "a" ⟨2024, 7, 15⟩ ⟨2024, 7, 15⟩ (by decide) (by decide)
    (by decide) (by decide) rfl, h.2.2.2⟩

/-- The two records of the C6 witness parse. -/
def c6Ps : List (List (String × PyVal)) :=
  [[("MEMBER_ID", PyVal.str "42"), ("AMOUNT", PyVal.num 5 0),
    ("hash", PyVal.str "664a375b0958a6a57fe1cfab5cd608a40359ce20a9c583ff58f98e2f4a065e3c"),
    ("DATE_PARSE", PyVal.str "2024-07-01")],
   [("MEMBER_ID", PyVal.str "7"), ("AMOUNT", PyVal.num 0 0),
    ("hash", PyVal.str "cd1e82d0bba79cbe25bab4a0c6cc0e5c5a07bb3ce4874532585e649a9f7d80ca"),
    ("DATE_PARSE", PyVal.str "2024-07-01")]]

/-- C6 witness: a two-row premium export (no `ID` column at all) keeps
both rows, stamping the derived fields. -/
theorem c6_premium_keep_all_w :
    c6Ps.length = 2 ∧
    dictGet (c6Ps.getD 1 []) "DATE_PARSE"
      = some (PyVal.str (fmtYm01 ⟨2024, 7, 15⟩)) := by
  have h := c6_premium_keep_all ⟨2024, 7, 15⟩ "MEMBER_ID;AMOUNT;\n42;5;\n7;0;\n"
    ["MEMBER_ID", "AMOUNT", ""] [["42", "5", ""], ["7", "0", ""]] (by decide)
    c6Ps (by decide)
  obtain ⟨mid, _, _, hdp⟩ := h.2 (c6Ps.getD 1 []) (by decide)
  exact ⟨h.1.trans (by decide), hdp⟩

/-! ## Lemmas about the paginated scrapers -/

/-- A page response on which the `get_app_list` loop continues: a reachable
table with at least one usable header and at least one data row. -/
def appPopulated : Fetch AppPage → Bool
  | .transportError => false
  | .page pg =>
    match pg.table with
    | none => false
    | some t =>
      if appHeaders t = [] then false
      else if t.bodyRows = [] then false
      else true

/-- The records one `get_app_list` response contributes. -/
def appRecordsOf : Fetch AppPage → List (List (String × String))
  | .transportError => []
  | .page pg =>
    match pg.table with
    | none => []
    | some t => appPageRecords t

/-- A page response on which the `get_client_list` loop continues. -/
def clientPopulated : Fetch ClientPage → Bool
  | .transportError => false
  | .page pg =>
    match pg.table with
    | none => false
    | some t =>
      match t.headerRow with
      | none => false
      | some _ => if t.rows.length ≤ 1 then false else true

/-- The records one `get_client_list` response contributes. -/
def clientRecordsOf : Fetch ClientPage → List (List (String × String))
  | .transportError => []
  | .page pg =>
    match pg.table with
    | none => []
    | some t =>
      match t.headerRow with
      | none => []
      | some hr => clientPageRecords t (clientHeaders hr)

theorem appLoop_pages_le (fetch : Nat → Fetch AppPage) :
    ∀ l : List Nat, (appLoop fetch l).2.length ≤ l.length := by
  intro l
  induction l with
  | nil => simp [appLoop]
  | cons p ps ih =>
    cases hf : fetch p with
    | transportError => simp [appLoop, hf]
    | page pg =>
      cases ht : pg.table with
      | none => simp [appLoop, hf, ht]
      | some t =>
        by_cases h1 : appHeaders t = []
        · simp [appLoop, hf, ht, h1]
        · by_cases h2 : t.bodyRows = []
          · simp [appLoop, hf, ht, h1, h2]
          · simp only [appLoop, hf, ht, if_neg h1, if_neg h2, List.length_cons]
            omega

theorem appLoop_populated (fetch : Nat → Fetch AppPage) :
    ∀ l : List Nat, (∀ p ∈ l, appPopulated (fetch p) = true) →
      appLoop fetch l = (l.flatMap (fun p => appRecordsOf (fetch p)), l) := by
  intro l
  induction l with
  | nil => intro _; rfl
  | cons p ps ih =>
    intro h
    have hp := h p (by simp)
    cases hf : fetch p with
    | transportError => rw [hf] at hp; simp [appPopulated] at hp
    | page pg =>
      rw [hf] at hp
      cases ht : pg.table with
      | none => simp [appPopulated, ht] at hp
      | some t =>
        simp only [appPopulated, ht] at hp
        by_cases h1 : appHeaders t = []
        · simp [h1] at hp
        · by_cases h2 : t.bodyRows = []
          · simp [h1, h2] at hp
          · simp only [appLoop, hf, ht, if_neg h1, if_neg h2]
            rw [ih (fun q hq => h q (by simp [hq]))]
            simp [appRecordsOf, hf, ht]

theorem appLoop_fail (fetch : Nat → Fetch AppPage) (k : Nat)
    (hk : fetch k = .transportError) :
    ∀ (l1 l2 : List Nat), (∀ p ∈ l1, appPopulated (fetch p) = true) →
      appLoop fetch (l1 ++ k :: l2)
        = (l1.flatMap (fun p => appRecordsOf (fetch p)), l1 ++ [k]) := by
  intro l1
  induction l1 with
  | nil => intro l2 _; simp [appLoop, hk]
  | cons p ps ih =>
    intro l2 h
    have hp := h p (by simp)
    cases hf : fetch p with
    | transportError => rw [hf] at hp; simp [appPopulated] at hp
    | page pg =>
      rw [hf] at hp
      cases ht : pg.table with
      | none => simp [appPopulated, ht] at hp
      | some t =>
        simp only [appPopulated, ht] at hp
        by_cases h1 : appHeaders t = []
        · simp [h1] at hp
        · by_cases h2 : t.bodyRows = []
          · simp [h1, h2] at hp
          · simp only [List.cons_append, appLoop, hf, ht, if_neg h1, if_neg h2]
            simp [appRecordsOf, hf, ht, ih l2 (fun q hq => h q (by simp [hq]))]

theorem clientLoop_pages_le (fetch : Nat → Fetch ClientPage) :
    ∀ l : List Nat, (clientLoop fetch l).2.length ≤ l.length := by
  intro l
  induction l with
  | nil => simp [clientLoop]
  | cons p ps ih =>
    cases hf : fetch p with
    | transportError => simp [clientLoop, hf]
    | page pg =>
      cases ht : pg.table with
      | none => simp [clientLoop, hf, ht]
      | some t =>
        cases hh : t.headerRow with
        | none => simp [clientLoop, hf, ht, hh]
        | some hr =>
          by_cases h1 : t.rows.length ≤ 1
          · simp [clientLoop, hf, ht, hh, h1]
          · simp only [clientLoop, hf, ht, hh, if_neg h1, List.length_cons]
            omega

theorem clientLoop_populated (fetch : Nat → Fetch ClientPage) :
    ∀ l : List Nat, (∀ p ∈ l, clientPopulated (fetch p) = true) →
      clientLoop fetch l = (l.flatMap (fun p => clientRecordsOf (fetch p)), l) := by
  intro l
  induction l with
  | nil => intro _; rfl
  | cons p ps ih =>
    intro h
    have hp := h p (by simp)
    cases hf : fetch p with
    | transportError => rw [hf] at hp; simp [clientPopulated] at hp
    | page pg =>
      rw [hf] at hp
      cases ht : pg.table with
      | none => simp [clientPopulated, ht] at hp
      | some t =>
        cases hh : t.headerRow with
        | none => simp [clientPopulated, ht, hh] at hp
        | some hr =>
          simp only [clientPopulated, ht, hh] at hp
          by_cases h1 : t.rows.length ≤ 1
          · simp [h1] at hp
          · simp only [clientLoop, hf, ht, hh, if_neg h1]
            rw [ih (fun q hq => h q (by simp [hq]))]
            simp [clientRecordsOf, hf, ht, hh]

theorem clientLoop_fail (fetch : Nat → Fetch ClientPage) (k : Nat)
    (hk : fetch k = .transportError) :
    ∀ (l1 l2 : List Nat), (∀ p ∈ l1, clientPopulated (fetch p) = true) →
      clientLoop fetch (l1 ++ k :: l2)
        = (l1.flatMap (fun p => clientRecordsOf (fetch p)), l1 ++ [k]) := by
  intro l1
  induction l1 with
  | nil => intro l2 _; simp [clientLoop, hk]
  | cons p ps ih =>
    intro l2 h
    have hp := h p (by simp)
    cases hf : fetch p with
    | transportError => rw [hf] at hp; simp [clientPopulated] at hp
    | page pg =>
      rw [hf] at hp
      cases ht : pg.table with
      | none => simp [clientPopulated, ht] at hp
      | some t =>
        cases hh : t.headerRow with
        | none => simp [clientPopulated, ht, hh] at hp
        | some hr =>
          simp only [clientPopulated, ht, hh] at hp
          by_cases h1 : t.rows.length ≤ 1
          · simp [h1] at hp
          · simp only [List.cons_append, clientLoop, hf, ht, hh, if_neg h1]
            simp [clientRecordsOf, hf, ht, hh,
              ih l2 (fun q hq => h q (by simp [hq]))]

theorem range'_split (k n : Nat) (h1 : 1 ≤ k) (h2 : k ≤ n) :
    List.range' 1 n = List.range' 1 (k - 1) ++ k :: List.range' (k + 1) (n - k) := by
  have e1 : List.range' 1 (k - 1) ++ List.range' (1 + (k - 1)) (1 + (n - k))
      = List.range' 1 ((1 + (n - k)) + (k - 1)) :=
    List.range'_append_1 1 (k - 1) (1 + (n - k))
  have e2 : (1 + (n - k)) + (k - 1) = n := by omega
  have e3 : 1 + (k - 1) = k := by omega
  have e4 : List.range' k (1 + (n - k)) = k :: List.range' (k + 1) (n - k) := by
    rw [show 1 + (n - k) = (n - k) + 1 by omega]
    exact List.range'_succ k (n - k) 1
  calc List.range' 1 n
      = List.range' 1 ((1 + (n - k)) + (k - 1)) := congrArg (List.range' 1) e2.symm
    _ = List.range' 1 (k - 1) ++ List.range' (1 + (k - 1)) (1 + (n - k)) := e1.symm
    _ = List.range' 1 (k - 1) ++ List.range' k (1 + (n - k)) := by rw [e3]
    _ = List.range' 1 (k - 1) ++ k :: List.range' (k + 1) (n - k) := by rw [e4]

theorem range'_concat_self (k : Nat) (h1 : 1 ≤ k) :
    List.range' 1 (k - 1) ++ [k] = List.range' 1 k := by
  have h : List.range' 1 ((k - 1) + 1) = List.range' 1 (k - 1) ++ [1 + 1 * (k - 1)] :=
    List.range'_concat 1 (k - 1)
  rw [show 1 + 1 * (k - 1) = k by omega] at h
  rw [← h, show (k - 1) + 1 = k by omega]

/-! ## Claim theorems for the paginated scrapers -/

/-- C7: both paginated scrapers fetch at most `max_pages` (100) pages for
every server behaviour; against a server that always returns a populated
table they fetch exactly pages `1..100` and return the concatenation of
the records extracted from every fetched page. -/
theorem c7_pagination_bound :
    (∀ fetch : Nat → Fetch AppPage,
      (get_app_list_pages fetch).length ≤ maxPages) ∧
    (∀ fetch : Nat → Fetch AppPage,
      (∀ p, 1 ≤ p → p ≤ maxPages → appPopulated (fetch p) = true) →
      get_app_list_pages fetch = List.range' 1 maxPages ∧
      get_app_list fetch = (List.range' 1 maxPages).flatMap
        (fun p => appRecordsOf (fetch p))) ∧
    (∀ fetch : Nat → Fetch ClientPage,
      (get_client_list_pages fetch).length ≤ maxPages) ∧
    (∀ fetch : Nat → Fetch ClientPage,
      (∀ p, 1 ≤ p → p ≤ maxPages → clientPopulated (fetch p) = true) →
      get_client_list_pages fetch = List.range' 1 maxPages ∧
      get_client_list fetch = (List.range' 1 maxPages).flatMap
        (fun p => clientRecordsOf (fetch p))) := by
  refine ⟨?_, ?_, ?_, ?_⟩
  · intro fetch
    have h := appLoop_pages_le fetch (List.range' 1 maxPages)
    simpa [get_app_list_pages, List.length_range'] using h
  · intro fetch h
    have hpop : ∀ p ∈ List.range' 1 maxPages, appPopulated (fetch p) = true := by
      intro p hp
      rw [List.mem_range'_1] at hp
      exact h p hp.1 (by omega)
    have heq := appLoop_populated fetch (List.range' 1 maxPages) hpop
    exact ⟨by rw [get_app_list_pages, heq], by rw [get_app_list, heq]⟩
  · intro fetch
    have h := clientLoop_pages_le fetch (List.range' 1 maxPages)
    simpa [get_client_list_pages, List.length_range'] using h
  · intro fetch h
    have hpop : ∀ p ∈ List.range' 1 maxPages, clientPopulated (fetch p) = true := by
      intro p hp
      rw [List.mem_range'_1] at hp
      exact h p hp.1 (by omega)
    have heq := clientLoop_populated fetch (List.range' 1 maxPages) hpop
    exact ⟨by rw [get_client_list_pages, heq], by rw [get_client_list, heq]⟩

/-- An always-populated app-list server. -/
def appFetchConst : Nat → Fetch AppPage :=
  fun _ => .page ⟨some ⟨["H"], [⟨["x"], none⟩]⟩⟩

/-- An always-populated client-list server. -/
def clientFetchConst : Nat → Fetch ClientPage :=
  fun _ => .page ⟨some ⟨some ["H"], [["a"], ["b"]]⟩⟩

/-- C7 witness: against always-populated servers both scrapers stop at
exactly the 100-page bound. -/
theorem c7_pagination_bound_w :
    get_app_list_pages appFetchConst = List.range' 1 maxPages ∧
    get_client_list_pages clientFetchConst = List.range' 1 maxPages ∧
    (get_app_list_pages appFetchConst).length ≤ maxPages := by
  refine ⟨(c7_pagination_bound.2.1 appFetchConst (fun p h1 h2 => rfl)).1,
    (c7_pagination_bound.2.2.2 clientFetchConst (fun p h1 h2 => rfl)).1,
    c7_pagination_bound.1 appFetchConst⟩

/-- C8: if the server fails at page `k` (1 ≤ k ≤ 100) after populated
pages `1..k-1`, both scrapers swallow the failure: they stop after fetching
pages `1..k` and return exactly the records accumulated from pages
`1..k-1`. -/
theorem c8_partial_results :
    (∀ (fetch : Nat → Fetch AppPage) (k : Nat), 1 ≤ k → k ≤ maxPages →
      (∀ p, 1 ≤ p → p < k → appPopulated (fetch p) = true) →
      fetch k = Fetch.transportError →
      get_app_list fetch = (List.range' 1 (k - 1)).flatMap
        (fun p => appRecordsOf (fetch p)) ∧
      get_app_list_pages fetch = List.range' 1 k) ∧
    (∀ (fetch : Nat → Fetch ClientPage) (k : Nat), 1 ≤ k → k ≤ maxPages →
      (∀ p, 1 ≤ p → p < k → clientPopulated (fetch p) = true) →
      fetch k = Fetch.transportError →
      get_client_list fetch = (List.range' 1 (k - 1)).flatMap
        (fun p => clientRecordsOf (fetch p)) ∧
      get_client_list_pages fetch = List.range' 1 k) := by
  constructor
  · intro fetch k hk1 hk2 hpop hfail
    have hsplit := range'_split k maxPages hk1 hk2
    have hpop' : ∀ p ∈ List.range' 1 (k - 1), appPopulated (fetch p) = true := by
      intro p hp
      rw [List.mem_range'_1] at hp
      exact hpop p hp.1 (by omega)
    have heq := appLoop_fail fetch k hfail (List.range' 1 (k - 1))
      (List.range' (k + 1) (maxPages - k)) hpop'
    refine ⟨by rw [get_app_list, hsplit, heq], ?_⟩
    rw [get_app_list_pages, hsplit, heq]
    exact range'_concat_self k hk1
  · intro fetch k hk1 hk2 hpop hfail
    have hsplit := range'_split k maxPages hk1 hk2
    have hpop' : ∀ p ∈ List.range' 1 (k - 1), clientPopulated (fetch p) = true := by
      intro p hp
      rw [List.mem_range'_1] at hp
      exact hpop p hp.1 (by omega)
    have heq := clientLoop_fail fetch k hfail (List.range' 1 (k - 1))
      (List.range' (k + 1) (maxPages - k)) hpop'
    refine ⟨by rw [get_client_list, hsplit, heq], ?_⟩
    rw [get_client_list_pages, hsplit, heq]
    exact range'_concat_self k hk1

/-- An app-list server that fails on page 3. -/
def appFetchFail3 : Nat → Fetch AppPage :=
  fun p => if p = 3 then .transportError else .page ⟨some ⟨["H"], [⟨["x"], none⟩]⟩⟩

/-- A client-list server that fails on page 3. -/
def clientFetchFail3 : Nat → Fetch ClientPage :=
  fun p => if p = 3 then .transportError else .page ⟨some ⟨some ["H"], [["a"], ["b"]]⟩⟩

/-- C8 witness: servers failing at page 3 yield the records of pages 1-2
and stop after fetching page 3. -/
theorem c8_partial_results_w :
    get_app_list appFetchFail3 = (List.range' 1 2).flatMap
      (fun p => appRecordsOf (appFetchFail3 p)) ∧
    get_app_list_pages appFetchFail3 = List.range' 1 3 ∧
    get_client_list clientFetchFail3 = (List.range' 1 2).flatMap
      (fun p => clientRecordsOf (clientFetchFail3 p)) ∧
    get_client_list_pages clientFetchFail3 = List.range' 1 3 := by
  have ha := c8_partial_results.1 appFetchFail3 3 (by decide) (by decide)
    (fun p h1 h2 => by interval_cases p <;> rfl) (by rfl)
  have hc := c8_partial_results.2 clientFetchFail3 3 (by decide) (by decide)
    (fun p h1 h2 => by interval_cases p <;> rfl) (by rfl)
  exact ⟨ha.1, ha.2, hc.1, hc.2⟩

end BitrixVendors
